import Mathlib

/-!
Verification of the nostr-types event/tag core (`src/types/event.rs`,
`src/types/tag.rs`) against its natural-language specification.

The Rust code is shallowly embedded: pure functions become Lean functions,
machine integers become `Nat`/`Int` with explicit `% 2^w` where overflow
matters, and fallible code returns `Except`/`Option`.  Types that live in
repository files outside the provided sources (keys, ids, delegation
conditions, the external JSON/signature/invoice collaborators) are modelled
from the specification; each such definition says so in its doc comment.
-/

set_option maxRecDepth 100000
set_option maxHeartbeats 2000000

/-! ## Byte-level utilities -/

/-- Lowercase hex digit for a nibble, as in the hex encoding used on the wire. -/
def hexDigitOf (n : Nat) : Char :=
  if n < 10 then Char.ofNat (48 + n) else Char.ofNat (87 + n)

/-- Numeric value of a hex digit (either case); 0 for non-hex input. -/
def hexValOf (c : Char) : Nat :=
  if 48 ≤ c.toNat ∧ c.toNat ≤ 57 then c.toNat - 48
  else if 97 ≤ c.toNat ∧ c.toNat ≤ 102 then c.toNat - 87
  else if 65 ≤ c.toNat ∧ c.toNat ≤ 70 then c.toNat - 55
  else 0

/-- Is this character a hex digit (either case)? -/
def isHexDigitChar (c : Char) : Bool :=
  (48 ≤ c.toNat && c.toNat ≤ 57) || (97 ≤ c.toNat && c.toNat ≤ 102)
    || (65 ≤ c.toNat && c.toNat ≤ 70)

/-- Hex-encode a byte list (two lowercase digits per byte). -/
def hexEncodeChars : List Nat → List Char
  | [] => []
  | b :: rest => hexDigitOf (b / 16) :: hexDigitOf (b % 16) :: hexEncodeChars rest

/-- Decode pairs of hex digits into bytes. -/
def hexDecodeChars : List Char → List Nat
  | c1 :: c2 :: rest => (hexValOf c1 * 16 + hexValOf c2) :: hexDecodeChars rest
  | _ => []

/-- Hex-encode a byte list into a string. -/
def hexEncode (bytes : List Nat) : String := ⟨hexEncodeChars bytes⟩

/-- Is `s` a string of exactly `n` hex digits? -/
def isHexOfLength (n : Nat) (s : String) : Bool :=
  s.data.length == n && s.data.all isHexDigitChar

/-- A byte list is well formed when every entry is an actual byte. -/
def bytesWF (l : List Nat) : Prop := ∀ b ∈ l, b < 256

instance (l : List Nat) : Decidable (bytesWF l) := by
  unfold bytesWF; infer_instance

theorem hexValOf_hexDigitOf {n : Nat} (h : n < 16) : hexValOf (hexDigitOf n) = n := by
  interval_cases n <;> decide

theorem isHexDigitChar_hexDigitOf {n : Nat} (h : n < 16) :
    isHexDigitChar (hexDigitOf n) = true := by
  interval_cases n <;> decide

theorem hexDecodeChars_hexEncodeChars {l : List Nat} (h : bytesWF l) :
    hexDecodeChars (hexEncodeChars l) = l := by
  induction l with
  | nil => rfl
  | cons b rest ih =>
    have hb : b < 256 := h b (List.mem_cons_self b rest)
    have hrest : bytesWF rest := fun x hx => h x (List.mem_cons_of_mem _ hx)
    have hdiv : b / 16 < 16 := by omega
    have hmod : b % 16 < 16 := by omega
    simp only [hexEncodeChars, hexDecodeChars, ih hrest,
      hexValOf_hexDigitOf hdiv, hexValOf_hexDigitOf hmod]
    congr 1
    omega

theorem hexEncodeChars_length (l : List Nat) :
    (hexEncodeChars l).length = 2 * l.length := by
  induction l with
  | nil => rfl
  | cons b rest ih => simp [hexEncodeChars, ih]; omega

theorem hexEncodeChars_all_hex {l : List Nat} (h : bytesWF l) :
    (hexEncodeChars l).all isHexDigitChar = true := by
  induction l with
  | nil => rfl
  | cons b rest ih =>
    have hb : b < 256 := h b (List.mem_cons_self b rest)
    have hrest : bytesWF rest := fun x hx => h x (List.mem_cons_of_mem _ hx)
    have hdiv : b / 16 < 16 := by omega
    have hmod : b % 16 < 16 := by omega
    simp [hexEncodeChars, List.all_cons, ih hrest,
      isHexDigitChar_hexDigitOf hdiv, isHexDigitChar_hexDigitOf hmod]

theorem isHexOfLength_hexEncode {l : List Nat} {n : Nat}
    (h : bytesWF l) (hn : l.length = n) :
    isHexOfLength (2 * n) (hexEncode l) = true := by
  simp [isHexOfLength, hexEncode, hexEncodeChars_length, hn, List.all_eq_true]
  have := hexEncodeChars_all_hex h
  simp [List.all_eq_true] at this
  exact this

/-! ## Decimal rendering and parsing (models Rust `format!` / `str::parse`) -/

/-- Digit character for `n < 10`. -/
def decDigitOf (n : Nat) : Char := Char.ofNat (48 + n)

/-- Fuel-driven decimal digit production (most significant first). -/
def natDecChars : Nat → Nat → List Char
  | 0, _ => []
  | fuel + 1, n =>
    if n < 10 then [decDigitOf n]
    else natDecChars fuel (n / 10) ++ [decDigitOf (n % 10)]

/-- Decimal rendering of a natural number, as Rust's `Display` for unsigned ints. -/
def natToStr (n : Nat) : String := ⟨natDecChars (n + 1) n⟩

/-- Decimal rendering of a signed integer, as Rust's `Display` for `i64`. -/
def intToStr (i : Int) : String :=
  if i < 0 then "-" ++ natToStr i.natAbs else natToStr i.natAbs

/-- Is this character a decimal digit? -/
def isDecDigit (c : Char) : Bool := 48 ≤ c.toNat && c.toNat ≤ 57

/-- Accumulate decimal digits into a value. -/
def decAccum (l : List Char) : Nat :=
  l.foldl (fun acc c => acc * 10 + (c.toNat - 48)) 0

/--
Models Rust `str::parse::<uN>` on a character list without the width bound:
an optional leading `+`, then one or more decimal digits.
-/
def parseNatChars (cs : List Char) : Option Nat :=
  let cs := if cs.head? = some '+' then cs.tail else cs
  if cs.isEmpty then none
  else if cs.all isDecDigit then some (decAccum cs) else none

/-- Models Rust `str::parse::<uN>` without the width bound. -/
def parseNatStr (s : String) : Option Nat := parseNatChars s.data

/-- Models Rust `str::parse::<u8>` (value must fit in 8 bits). -/
def parseU8 (s : String) : Option Nat :=
  match parseNatStr s with
  | some n => if n < 256 then some n else none
  | none => none

/-- Models Rust `str::parse::<u32>` (value must fit in 32 bits). -/
def parseU32 (s : String) : Option Nat :=
  match parseNatStr s with
  | some n => if n < 4294967296 then some n else none
  | none => none

theorem decAccum_append (l1 l2 : List Char) :
    decAccum (l1 ++ l2) =
      l2.foldl (fun acc c => acc * 10 + (c.toNat - 48)) (decAccum l1) := by
  simp [decAccum, List.foldl_append]

theorem isDecDigit_decDigitOf {n : Nat} (h : n < 10) : isDecDigit (decDigitOf n) = true := by
  interval_cases n <;> decide

theorem natDecChars_all_digits : ∀ fuel n, (natDecChars fuel n).all isDecDigit = true := by
  intro fuel
  induction fuel with
  | zero => intro n; rfl
  | succ fuel ih =>
    intro n
    by_cases h : n < 10
    · simp [natDecChars, h, isDecDigit_decDigitOf h]
    · have hm : n % 10 < 10 := by omega
      simp [natDecChars, h, ih, isDecDigit_decDigitOf hm]

theorem toNat_decDigitOf {n : Nat} (h : n < 10) : (decDigitOf n).toNat - 48 = n := by
  interval_cases n <;> decide

theorem decAccum_natDecChars : ∀ fuel n, n < fuel → decAccum (natDecChars fuel n) = n := by
  intro fuel
  induction fuel with
  | zero => intro n h; omega
  | succ fuel ih =>
    intro n h
    by_cases hn : n < 10
    · simp only [natDecChars, if_pos hn, decAccum, List.foldl_cons, List.foldl_nil]
      rw [Nat.zero_mul, Nat.zero_add, toNat_decDigitOf hn]
    · have hdiv : n / 10 < fuel := by
        have h1 : n / 10 < n := Nat.div_lt_self (by omega) (by omega)
        omega
      simp only [natDecChars, if_neg hn, decAccum_append, ih (n / 10) hdiv,
        List.foldl_cons, List.foldl_nil]
      have hm : n % 10 < 10 := by omega
      rw [toNat_decDigitOf hm]
      omega

theorem natDecChars_ne_nil (n : Nat) : natDecChars (n + 1) n ≠ [] := by
  by_cases h : n < 10
  · simp [natDecChars, h]
  · simp only [natDecChars, if_neg h]
    intro hc
    exact absurd (List.append_eq_nil.mp hc).2 (by simp)

theorem parseNatChars_of_digits {cs : List Char} (hne : cs ≠ [])
    (hdig : cs.all isDecDigit = true) : parseNatChars cs = some (decAccum cs) := by
  cases cs with
  | nil => exact absurd rfl hne
  | cons c rest =>
    have hc : isDecDigit c = true := List.all_eq_true.mp hdig c (List.mem_cons_self _ _)
    have hcp : ¬ ((c :: rest).head? = some '+') := by
      simp only [List.head?_cons, Option.some.injEq]
      intro h
      rw [h] at hc
      exact absurd hc (by decide)
    unfold parseNatChars
    simp only [if_neg hcp, List.isEmpty_cons, hdig, if_pos, Bool.false_eq_true,
      if_false]

theorem parseNatStr_natToStr (n : Nat) : parseNatStr (natToStr n) = some n := by
  have hdig := natDecChars_all_digits (n + 1) n
  have hne := natDecChars_ne_nil n
  show parseNatChars (natDecChars (n + 1) n) = some n
  rw [parseNatChars_of_digits hne hdig, decAccum_natDecChars (n + 1) n (by omega)]

theorem parseU32_natToStr {n : Nat} (h : n < 4294967296) :
    parseU32 (natToStr n) = some n := by
  simp [parseU32, parseNatStr_natToStr, h]

/-! ## UTF-8 encoding (models `str::as_bytes`) -/

/-- UTF-8 bytes of one unicode scalar value. -/
def charUtf8 (c : Char) : List Nat :=
  let n := c.toNat
  if n < 128 then [n]
  else if n < 2048 then [192 + n / 64, 128 + n % 64]
  else if n < 65536 then [224 + n / 4096, 128 + (n / 64) % 64, 128 + n % 64]
  else [240 + n / 262144, 128 + (n / 4096) % 64, 128 + (n / 64) % 64, 128 + n % 64]

/-- UTF-8 bytes of a string: models Rust `str::as_bytes`. -/
def utf8Bytes (s : String) : List Nat :=
  s.data.foldr (fun c acc => charUtf8 c ++ acc) []

/-! ## SHA-256 (the digest used by `Event::hash` by way of `k256::sha2`) -/

/-- Word arithmetic is on 32-bit values: reduce modulo `2^32`. -/
def w32 : Nat := 4294967296

/-- 32-bit addition. -/
def add32 (a b : Nat) : Nat := (a + b) % w32

/-- 32-bit right rotation. -/
def rotr32 (n x : Nat) : Nat := ((x >>> n) ||| (x <<< (32 - n))) % w32

/-- SHA-256 `Ch` function. -/
def shaCh (x y z : Nat) : Nat := (x &&& y) ^^^ ((x ^^^ 4294967295) &&& z)

/-- SHA-256 `Maj` function. -/
def shaMaj (x y z : Nat) : Nat := (x &&& y) ^^^ (x &&& z) ^^^ (y &&& z)

/-- SHA-256 big sigma 0. -/
def shaS0 (x : Nat) : Nat := rotr32 2 x ^^^ rotr32 13 x ^^^ rotr32 22 x

/-- SHA-256 big sigma 1. -/
def shaS1 (x : Nat) : Nat := rotr32 6 x ^^^ rotr32 11 x ^^^ rotr32 25 x

/-- SHA-256 small sigma 0. -/
def shas0 (x : Nat) : Nat := rotr32 7 x ^^^ rotr32 18 x ^^^ (x >>> 3)

/-- SHA-256 small sigma 1. -/
def shas1 (x : Nat) : Nat := rotr32 17 x ^^^ rotr32 19 x ^^^ (x >>> 10)

/-- SHA-256 round constants. -/
def shaK : List Nat :=
  [1116352408, 1899447441, 3049323471, 3921009573, 961987163, 1508970993,
   2453635748, 2870763221, 3624381080, 310598401, 607225278, 1426881987,
   1925078388, 2162078206, 2614888103, 3248222580, 3835390401, 4022224774,
   264347078, 604807628, 770255983, 1249150122, 1555081692, 1996064986,
   2554220882, 2821834349, 2952996808, 3210313671, 3336571891, 3584528711,
   113926993, 338241895, 666307205, 773529912, 1294757372, 1396182291,
   1695183700, 1986661051, 2177026350, 2456956037, 2730485921, 2820302411,
   3259730800, 3345764771, 3516065817, 3600352804, 4094571909, 275423344,
   430227734, 506948616, 659060556, 883997877, 958139571, 1322822218,
   1537002063, 1747873779, 1955562222, 2024104815, 2227730452, 2361852424,
   2428436474, 2756734187, 3204031479, 3329325298]

/-- SHA-256 initial hash state. -/
def shaH0 : List Nat :=
  [1779033703, 3144134277, 1013904242, 2773480762,
   1359893119, 2600822924, 528734635, 1541459225]

/-- Pad a byte message per SHA-256 (append `0x80`, zeros, 64-bit bit length). -/
def shaPad (msg : List Nat) : List Nat :=
  let L := msg.length
  let z := (64 + 56 - (L + 1) % 64) % 64
  let bits := 8 * L
  msg ++ [128] ++ List.replicate z 0 ++
    [(bits >>> 56) % 256, (bits >>> 48) % 256, (bits >>> 40) % 256,
     (bits >>> 32) % 256, (bits >>> 24) % 256, (bits >>> 16) % 256,
     (bits >>> 8) % 256, bits % 256]

/-- Fold groups of four bytes into big-endian 32-bit words. -/
def bytesToWords : List Nat → List Nat
  | a :: b :: c :: d :: rest =>
      (a * 16777216 + b * 65536 + c * 256 + d) :: bytesToWords rest
  | _ => []

/-- Message-schedule extension; `rev` holds produced words most recent first. -/
def shaExtend : Nat → List Nat → List Nat
  | 0, rev => rev.reverse
  | n + 1, rev =>
    let word := add32 (add32 (shas1 (rev.getD 1 0)) (rev.getD 6 0))
                      (add32 (shas0 (rev.getD 14 0)) (rev.getD 15 0))
    shaExtend n (word :: rev)

/-- One SHA-256 compression round. -/
def shaRound (st : Nat × Nat × Nat × Nat × Nat × Nat × Nat × Nat) (wk : Nat × Nat) :
    Nat × Nat × Nat × Nat × Nat × Nat × Nat × Nat :=
  let (a, b, c, d, e, f, g, h) := st
  let (w, k) := wk
  let t1 := add32 h (add32 (shaS1 e) (add32 (shaCh e f g) (add32 k w)))
  let t2 := add32 (shaS0 a) (shaMaj a b c)
  (add32 t1 t2, a, b, c, add32 d t1, e, f, g)

/-- Process one 64-byte block, updating the 8-word hash state. -/
def shaBlock (hs : List Nat) (block : List Nat) : List Nat :=
  let ws := shaExtend 48 (bytesToWords block).reverse
  let init := (hs.getD 0 0, hs.getD 1 0, hs.getD 2 0, hs.getD 3 0,
               hs.getD 4 0, hs.getD 5 0, hs.getD 6 0, hs.getD 7 0)
  let (a, b, c, d, e, f, g, h) := (ws.zip shaK).foldl shaRound init
  [add32 (hs.getD 0 0) a, add32 (hs.getD 1 0) b, add32 (hs.getD 2 0) c,
   add32 (hs.getD 3 0) d, add32 (hs.getD 4 0) e, add32 (hs.getD 5 0) f,
   add32 (hs.getD 6 0) g, add32 (hs.getD 7 0) h]

/-- Split a list into chunks of 64, with explicit fuel for structural recursion. -/
def chunks64F : Nat → List Nat → List (List Nat)
  | 0, _ => []
  | fuel + 1, l => if l.isEmpty then [] else l.take 64 :: chunks64F fuel (l.drop 64)

/-- Split a list into chunks of 64. -/
def chunks64 (l : List Nat) : List (List Nat) := chunks64F l.length l

/-- SHA-256 of a byte list, producing the 32 digest bytes. -/
def sha256 (msg : List Nat) : List Nat :=
  let hs := (chunks64 (shaPad msg)).foldl shaBlock shaH0
  hs.foldr (fun wrd acc =>
    (wrd >>> 24) % 256 :: (wrd >>> 16) % 256 :: (wrd >>> 8) % 256 :: wrd % 256 :: acc) []

theorem shaBlock_length (hs block : List Nat) : (shaBlock hs block).length = 8 := by
  unfold shaBlock
  rfl

theorem foldl_shaBlock_length (blocks : List (List Nat)) :
    ∀ hs : List Nat, hs.length = 8 → (blocks.foldl shaBlock hs).length = 8 := by
  induction blocks with
  | nil => intro hs h; simpa using h
  | cons b rest ih =>
      intro hs _
      rw [List.foldl_cons]
      exact ih _ (shaBlock_length hs b)

theorem foldr_words_length (hs : List Nat) :
    (hs.foldr (fun wrd acc =>
      (wrd >>> 24) % 256 :: (wrd >>> 16) % 256 :: (wrd >>> 8) % 256 :: wrd % 256 :: acc)
      []).length = 4 * hs.length := by
  induction hs with
  | nil => rfl
  | cons w rest ih => simp [List.foldr_cons, ih]; omega

theorem sha256_length (msg : List Nat) : (sha256 msg).length = 32 := by
  unfold sha256
  rw [foldr_words_length, foldl_shaBlock_length _ shaH0 (by rfl)]

theorem sha256_bytesWF (msg : List Nat) : bytesWF (sha256 msg) := by
  unfold sha256 bytesWF
  generalize (chunks64 (shaPad msg)).foldl shaBlock shaH0 = hs
  induction hs with
  | nil => intro b hb; simp at hb
  | cons w rest ih =>
      intro b hb
      simp only [List.foldr_cons, List.mem_cons] at hb
      rcases hb with h | h | h | h | h
      · omega
      · omega
      · omega
      · omega
      · exact ih b h

/-! ## A compact JSON model (the external `serde_json` collaborator)

Tags serialize through serde's data model; `serde_json::to_string` renders
compactly (no whitespace).  Only strings, numbers and arrays occur in this
codebase's wire data.
-/

/-- JSON values as used on this wire: strings, integers, arrays. -/
inductive Json where
  | str : String → Json
  | num : Int → Json
  | arr : List Json → Json

/-- serde_json escaping for one character inside a JSON string literal. -/
def jsonEscapeChar (c : Char) : List Char :=
  if c = '"' then ['\\', '"']
  else if c = '\\' then ['\\', '\\']
  else if c.toNat = 8 then ['\\', 'b']
  else if c.toNat = 9 then ['\\', 't']
  else if c.toNat = 10 then ['\\', 'n']
  else if c.toNat = 12 then ['\\', 'f']
  else if c.toNat = 13 then ['\\', 'r']
  else if c.toNat < 32 then
    ['\\', 'u', '0', '0', hexDigitOf (c.toNat / 16), hexDigitOf (c.toNat % 16)]
  else [c]

/-- serde_json rendering of a string literal, quotes included. -/
def jsonRenderStr (s : String) : String :=
  "\"" ++ (⟨s.data.foldr (fun c acc => jsonEscapeChar c ++ acc) []⟩ : String) ++ "\""

/-- Join rendered elements with commas. -/
def joinComma : List String → String
  | [] => ""
  | [s] => s
  | s :: rest => s ++ "," ++ joinComma rest

/-- Depth-fueled compact JSON rendering (fuel bounds array nesting only). -/
def jsonRenderD : Nat → Json → String
  | _, .str s => jsonRenderStr s
  | _, .num i => intToStr i
  | 0, .arr _ => ""
  | d + 1, .arr l => "[" ++ joinComma (l.map (jsonRenderD d)) ++ "]"

/-- Compact JSON rendering, models `serde_json::to_string`. -/
def Json.render (j : Json) : String := jsonRenderD 1000000 j

namespace Nostr

/-! ## Domain types

These types live in repository files that are not part of the provided
sources (`id.rs`, `public_key.rs`, `private_key.rs`, `signature.rs`,
`unixtime.rs`, `event_kind.rs`, `url.rs`, `delegation.rs`); they are
modelled from the specification.
-/

/-- Modelled from the spec: an event `Id` is a 32-byte digest, hex on the wire. -/
structure Id where
  bytes : List Nat
deriving DecidableEq

/-- An `Id` is well formed when it is exactly 32 actual bytes. -/
def Id.wf (i : Id) : Prop := i.bytes.length = 32 ∧ bytesWF i.bytes

instance (i : Id) : Decidable i.wf := by unfold Id.wf; infer_instance

/-- Modelled from the spec: an actor's public key (32 bytes, hex on the wire). -/
structure PublicKey where
  bytes : List Nat
deriving DecidableEq

/-- Modelled from the spec: a private key, consumed only through the signing
capability.  Signature primitives are external collaborators. -/
structure PrivateKey where
  bytes : List Nat
deriving DecidableEq

/-- Modelled from the spec: derive the public key of a private key.  The
derivation is opaque in the source; it is modelled as a digest so that the
result is always 32 well-formed bytes. -/
def PrivateKey.public_key (sk : PrivateKey) : PublicKey := ⟨sha256 sk.bytes⟩

/-- Modelled from the spec: a 64-byte signature value. -/
structure Signature where
  bytes : List Nat
deriving DecidableEq

/-- Modelled from the spec: the external schnorr primitive is deterministic
(BIP-340 style), so the unique valid signature by key `pk` over digest `d`
is modelled as the byte string `pk ++ d`; verification compares against it. -/
def sigBytesOf (pkBytes digest : List Nat) : List Nat := pkBytes ++ digest

/-- Modelled from the spec: `PrivateKey::sign_id` signs the 32-byte digest. -/
def PrivateKey.sign_id (sk : PrivateKey) (id : Id) : Signature :=
  ⟨sigBytesOf sk.public_key.bytes id.bytes⟩

/-- Modelled from the spec: the schnorr `verify(bytes, signature, key)`
capability; the primitive hashes the message internally, reconciling
sign-the-digest with verify-the-serialized-text. -/
def schnorr_verify (pk : PublicKey) (msg : List Nat) (sig : Signature) : Bool :=
  sig.bytes == sigBytesOf pk.bytes (sha256 msg)

/-- Modelled from the spec: a validated hex form of a public key (64 hex digits). -/
abbrev PublicKeyHex := String

/-- Modelled from the spec: validation of a hex public-key string. -/
def PublicKeyHex.try_from_str (s : String) : Except String PublicKeyHex :=
  if isHexOfLength 64 s then .ok s else .error "invalid public key hex"

/-- Modelled from the spec: a validated hex form of a signature (128 hex digits). -/
abbrev SignatureHex := String

/-- Modelled from the spec: hex decoding of a signature; malformed hex errors. -/
def Signature.try_from_hex_string (s : String) : Except String Signature :=
  if isHexOfLength 128 s then .ok ⟨hexDecodeChars s.data⟩
  else .error "invalid signature hex"

/-- Modelled from the spec: hex decoding of a public key; malformed hex errors. -/
def PublicKey.try_from_hex_string (s : String) : Except String PublicKey :=
  if isHexOfLength 64 s then .ok ⟨hexDecodeChars s.data⟩
  else .error "invalid public key hex"

/-- Hex rendering of a public key. -/
def PublicKey.as_hex_string (pk : PublicKey) : String := hexEncode pk.bytes

/-- Modelled from the spec: `Unixtime` is signed Unix seconds (i64),
serialized as a JSON number. -/
abbrev Unixtime := Int

/-- Modelled from the spec: `EventKind` is a protocol-defined integer
category, convertible to and from `u32`. -/
abbrev EventKind := Nat

/-- Modelled from the spec: the text-note kind. -/
def EventKind.TextNote : EventKind := 1

/-- Modelled from the spec: the encrypted-direct-message kind. -/
def EventKind.EncryptedDirectMessage : EventKind := 4

/-- Modelled from the spec: the deletion kind. -/
def EventKind.EventDeletion : EventKind := 5

/-- Modelled from the spec: the repost kind. -/
def EventKind.Repost : EventKind := 6

/-- Modelled from the spec: the reaction kind. -/
def EventKind.Reaction : EventKind := 7

/-- Modelled from the spec: the zap-receipt kind. -/
def EventKind.Zap : EventKind := 9735

/-- Modelled from the spec: the long-form-content kind. -/
def EventKind.LongFormContent : EventKind := 30023

/-- Modelled from the spec: a "feed-displayable" kind is one eligible for
reply/mention/hashtag interpretation. -/
def EventKind.is_feed_displayable (k : EventKind) : Bool :=
  k == EventKind.TextNote || k == EventKind.EncryptedDirectMessage
    || k == EventKind.Repost || k == EventKind.Reaction
    || k == EventKind.LongFormContent

/-- Modelled from the spec: an unvalidated URL string as found in tags. -/
abbrev UncheckedUrl := String

/-- Modelled from the spec: a validated relay URL. -/
abbrev RelayUrl := String

/-- Modelled from the spec: `RelayUrl::try_from_unchecked_url` accepts only
websocket-scheme URLs; the exact validation lives in a missing source file. -/
def RelayUrl.try_from_unchecked_url (u : UncheckedUrl) : Option RelayUrl :=
  if "ws://".data.isPrefixOf u.data || "wss://".data.isPrefixOf u.data
  then some u else none

/-- A millisatoshi amount. -/
abbrev MilliSatoshi := Nat

/-- Modelled from the spec: a delegation condition set parsed from the
query-string grammar `kind=N`, `created_at>N`, `created_at<N` joined by `&`;
the original string is retained for the wire form. -/
structure DelegationConditions where
  kind : Option EventKind
  created_after : Option Unixtime
  created_before : Option Unixtime
  full : String
deriving DecidableEq

/-- Strip an expected leading character sequence. -/
def stripLead (lead cs : List Char) : Option (List Char) :=
  if lead.isPrefixOf cs then some (cs.drop lead.length) else none

/-- Split a character list at every occurrence of `ch` (Rust `str::split`). -/
def splitOnChar (ch : Char) : List Char → List (List Char)
  | [] => [[]]
  | c :: rest =>
    if c = ch then [] :: splitOnChar ch rest
    else
      match splitOnChar ch rest with
      | [] => [[c]]
      | g :: gs => (c :: g) :: gs

/-- Modelled from the spec: parse one `&`-separated condition clause into an
update of the condition set; unrecognized clauses are parse errors. -/
def DelegationConditions.applyClause (c : DelegationConditions) (clause : List Char) :
    Except String DelegationConditions :=
  match stripLead "kind=".data clause with
  | some v =>
    match parseU32 ⟨v⟩ with
    | some n => .ok { c with kind := some n }
    | none => .error "bad kind value"
  | none =>
  match stripLead "created_at>".data clause with
  | some v =>
    match parseNatChars v with
    | some n => .ok { c with created_after := some (Int.ofNat n) }
    | none => .error "bad created_at value"
  | none =>
  match stripLead "created_at<".data clause with
  | some v =>
    match parseNatChars v with
    | some n => .ok { c with created_before := some (Int.ofNat n) }
    | none => .error "bad created_at value"
  | none => .error "unrecognized condition clause"

/-- Modelled from the spec: parse a full conditions query string; parse errors
are surfaced as a distinct, catchable error. -/
def DelegationConditions.try_from_str (s : String) : Except String DelegationConditions :=
  let start : DelegationConditions :=
    { kind := none, created_after := none, created_before := none, full := s }
  (splitOnChar '&' s.data).foldlM DelegationConditions.applyClause start

/-- The wire form of a condition set is its retained query string. -/
def DelegationConditions.as_string (c : DelegationConditions) : String := c.full

/-- Modelled from the spec: the delegation token the delegator signs covers
the condition string bound to the delegatee's public key, not the event. -/
def delegationTokenBytes (delegatee_hex : String) (conditions_string : String) : List Nat :=
  utf8Bytes ("nostr:delegation:" ++ delegatee_hex ++ ":" ++ conditions_string)

/-- Modelled from the spec: verify that `delegator` signed the delegation
token binding these conditions to `delegatee`. -/
def DelegationConditions.verify_signature (c : DelegationConditions)
    (delegator : PublicKey) (delegatee : PublicKey) (sig : Signature) :
    Except String Unit :=
  if sig.bytes = sigBytesOf delegator.bytes
      (sha256 (delegationTokenBytes (hexEncode delegatee.bytes) c.full))
  then .ok () else .error "delegation signature verification failed"

/-- Modelled from the spec: produce the delegation-token signature with the
delegator's private key. -/
def DelegationConditions.generate_signature (c : DelegationConditions)
    (delegatee_hex : PublicKeyHex) (sk : PrivateKey) : Signature :=
  ⟨sigBytesOf sk.public_key.bytes
    (sha256 (delegationTokenBytes delegatee_hex c.full))⟩

/-- The delegation query result (`EventDelegation` in the source). -/
inductive EventDelegation where
  | NotDelegated : EventDelegation
  | DelegatedBy : PublicKey → EventDelegation
  | InvalidDelegation : String → EventDelegation
deriving DecidableEq

/-- The error type of the event engine (`crate::Error`), restricted to the
variants these sources produce. -/
inductive Error where
  | SignatureMismatch : Error
  | EventInFuture : Error
  | HashMismatch : Error
  | WrongEventKind : Error
  | ZapReceipt : String → Error
deriving DecidableEq

/-! ## The `Tag` type (`src/types/tag.rs`) -/

/-- A tag on an Event (the `Tag` enum of `tag.rs`). -/
inductive Tag where
  | Address (kind : EventKind) (pubkey : PublicKeyHex) (d : String)
      (relay_url : Option UncheckedUrl)
  | ContentWarning (warning : String)
  | Delegation (pubkey : PublicKeyHex) (conditions : DelegationConditions)
      (sig : SignatureHex)
  | Event (id : Id) (recommended_relay_url : Option UncheckedUrl)
      (marker : Option String)
  | Expiration (time : Unixtime)
  | Pubkey (pubkey : PublicKeyHex) (recommended_relay_url : Option UncheckedUrl)
      (petname : Option String)
  | Hashtag (hashtag : String)
  | Reference (url : UncheckedUrl) (marker : Option String)
  | Geohash (geohash : String)
  | Identifier (id : String)
  | Subject (subject : String)
  | Nonce (nonce : String) (target : Option String)
  | Parameter (param : String)
  | Title (title : String)
  | Other (tag : String) (data : List String)
  | Empty
deriving DecidableEq

/--
`Tag::tagname`.  The Rust function returns `String` and panics on `Empty`
("empty tags have no tagname"); the panic is modelled as `none`.
-/
def Tag.tagname : Tag → Option String
  | .Address _ _ _ _ => some "address"
  | .ContentWarning _ => some "content-warning"
  | .Delegation _ _ _ => some "delegation"
  | .Event _ _ _ => some "e"
  | .Expiration _ => some "expiration"
  | .Pubkey _ _ _ => some "p"
  | .Hashtag _ => some "t"
  | .Reference _ _ => some "r"
  | .Geohash _ => some "g"
  | .Identifier _ => some "d"
  | .Subject _ => some "subject"
  | .Nonce _ _ => some "nonce"
  | .Parameter _ => some "parameter"
  | .Title _ => some "title"
  | .Other tag _ => some tag
  | .Empty => none

/-- `impl Serialize for Tag`: the sequence of elements each variant emits.
Trailing optional fields are emitted only when present; an absent earlier
optional slot before a present later one becomes an empty-string placeholder. -/
def Tag.serializeTag : Tag → List Json
  | .Address kind pubkey d relay_url =>
    [Json.str "a", Json.str (natToStr kind ++ ":" ++ pubkey ++ ":" ++ d)]
      ++ (match relay_url with | some ru => [Json.str ru] | none => [])
  | .ContentWarning msg => [Json.str "content-warning", Json.str msg]
  | .Delegation pubkey conditions sig =>
    [Json.str "delegation", Json.str pubkey, Json.str conditions.as_string,
     Json.str sig]
  | .Event id rru marker =>
    [Json.str "e", Json.str (hexEncode id.bytes)]
      ++ (match rru with
          | some ru => [Json.str ru]
          | none => match marker with | some _ => [Json.str ""] | none => [])
      ++ (match marker with | some m => [Json.str m] | none => [])
  | .Expiration time => [Json.str "expiration", Json.num time]
  | .Pubkey pubkey rru petname =>
    [Json.str "p", Json.str pubkey]
      ++ (match rru with
          | some ru => [Json.str ru]
          | none => match petname with | some _ => [Json.str ""] | none => [])
      ++ (match petname with | some pn => [Json.str pn] | none => [])
  | .Hashtag hashtag => [Json.str "t", Json.str hashtag]
  | .Reference url marker =>
    [Json.str "r", Json.str url]
      ++ (match marker with | some m => [Json.str m] | none => [])
  | .Geohash geohash => [Json.str "g", Json.str geohash]
  | .Identifier id => [Json.str "d", Json.str id]
  | .Subject subject => [Json.str "subject", Json.str subject]
  | .Nonce nonce target =>
    [Json.str "nonce", Json.str nonce]
      ++ (match target with | some t => [Json.str t] | none => [])
  | .Parameter param => [Json.str "parameter", Json.str param]
  | .Title title => [Json.str "title", Json.str title]
  | .Other tag data => Json.str tag :: data.map Json.str
  | .Empty => []

/-! ### Tag decoding (`TagVisitor::visit_seq`)

serde hands the visitor the array's elements in order; `next_element::<T>()`
yields `none` at the end of the array and errors when the element does not
deserialize as `T`.  After the visitor returns, serde_json errors if
elements remain unconsumed.
-/

/-- `next_element::<&str>` / `::<String>` on a present element. -/
def getStr : Json → Except String String
  | .str s => .ok s
  | _ => .error "expected a string element"

/-- `next_element::<Unixtime>` on a present element (i64, a JSON number). -/
def getUnixtime : Json → Except String Unixtime
  | .num i => .ok i
  | _ => .error "expected a number element"

/-- Modelled from the spec: deserializing an `Id` from its hex string form;
malformed hex is an error. -/
def Id.fromHexStr (s : String) : Except String Id :=
  if isHexOfLength 64 s then .ok ⟨hexDecodeChars s.data⟩
  else .error "invalid id hex"

/-- Deserialize every element as a string (the catch-all `Other` loop). -/
def getStrs : List Json → Except String (List String)
  | [] => .ok []
  | j :: rest => do
    let s ← getStr j
    let r ← getStrs rest
    .ok (s :: r)

/-- The raw strings seen so far when an `"a"` tag falls back to `Other`. -/
def aFailVec (a : String) (relay_url : Option UncheckedUrl) : List String :=
  match relay_url with
  | some url => [a, url]
  | none => [a]

/-- The `"a"` branch after the packed string and optional relay url are in
hand: split on `:` into exactly three parts, parse the kind as `u32`,
validate the pubkey hex; any failure falls back to `Other` with the raw
strings seen so far. -/
def decodeAFinish (a : String) (relay_url : Option UncheckedUrl) : Tag :=
  match (splitOnChar ':' a.data).map (fun l => (⟨l⟩ : String)) with
  | [p0, p1, p2] =>
    match parseU32 p0 with
    | none => .Other "a" (aFailVec a relay_url)
    | some kindnum =>
      match PublicKeyHex.try_from_str p1 with
      | .error _ => .Other "a" (aFailVec a relay_url)
      | .ok pk => .Address kindnum pk p2 relay_url
  | _ => .Other "a" (aFailVec a relay_url)

/-- The `"a"` branch. -/
def decodeATag (rest : List Json) : Except String Tag :=
  match rest with
  | [] => .ok (.Other "a" [])
  | aj :: rest1 => do
    let a ← getStr aj
    match rest1 with
    | [] => .ok (decodeAFinish a none)
    | rj :: rest2 => do
      let ru ← getStr rj
      if rest2.isEmpty then .ok (decodeAFinish a (some ru))
      else .error "trailing elements"

/-- The `"e"` branch. -/
def decodeETag (rest : List Json) : Except String Tag :=
  match rest with
  | [] => .ok (.Other "e" [])
  | idj :: rest1 => do
    let ids ← getStr idj
    let id ← Id.fromHexStr ids
    match rest1 with
    | [] => .ok (.Event id none none)
    | rj :: rest2 => do
      let ru ← getStr rj
      match rest2 with
      | [] => .ok (.Event id (some ru) none)
      | mj :: rest3 => do
        let m ← getStr mj
        if rest3.isEmpty then .ok (.Event id (some ru) (some m))
        else .error "trailing elements"

/-- The `"p"` branch. -/
def decodePTag (rest : List Json) : Except String Tag :=
  match rest with
  | [] => .ok (.Other "p" [])
  | pj :: rest1 => do
    let ps ← getStr pj
    let pk ← PublicKeyHex.try_from_str ps
    match rest1 with
    | [] => .ok (.Pubkey pk none none)
    | rj :: rest2 => do
      let ru ← getStr rj
      match rest2 with
      | [] => .ok (.Pubkey pk (some ru) none)
      | nj :: rest3 => do
        let pn ← getStr nj
        if rest3.isEmpty then .ok (.Pubkey pk (some ru) (some pn))
        else .error "trailing elements"

/-- The `"delegation"` branch. -/
def decodeDelegationTag (rest : List Json) : Except String Tag :=
  match rest with
  | [] => .ok (.Other "delegation" [])
  | pj :: rest1 => do
    let ps ← getStr pj
    let pk ← PublicKeyHex.try_from_str ps
    match rest1 with
    | [] => .ok (.Other "delegation" [pk])
    | cj :: rest2 => do
      let cs ← getStr cj
      let conditions ← DelegationConditions.try_from_str cs
      match rest2 with
      | [] => .ok (.Other "delegation" [pk, conditions.as_string])
      | sj :: rest3 => do
        let ss ← getStr sj
        if isHexOfLength 128 ss then
          if rest3.isEmpty then .ok (.Delegation pk conditions ss)
          else .error "trailing elements"
        else .error "invalid signature hex"

/-- A branch that takes exactly one required string (falling back to `Other`
with no data when the value element is missing). -/
def decodeOneStr (name : String) (ctor : String → Tag) (rest : List Json) :
    Except String Tag :=
  match rest with
  | [] => .ok (.Other name [])
  | vj :: rest1 => do
    let v ← getStr vj
    if rest1.isEmpty then .ok (ctor v) else .error "trailing elements"

/-- The `"expiration"` branch (value is a number). -/
def decodeExpirationTag (rest : List Json) : Except String Tag :=
  match rest with
  | [] => .ok (.Other "expiration" [])
  | vj :: rest1 => do
    let t ← getUnixtime vj
    if rest1.isEmpty then .ok (.Expiration t) else .error "trailing elements"

/-- The `"r"` branch: a required url then an optional marker. -/
def decodeRTag (rest : List Json) : Except String Tag :=
  match rest with
  | [] => .ok (.Other "r" [])
  | uj :: rest1 => do
    let u ← getStr uj
    match rest1 with
    | [] => .ok (.Reference u none)
    | mj :: rest2 => do
      let m ← getStr mj
      if rest2.isEmpty then .ok (.Reference u (some m))
      else .error "trailing elements"

/-- The `"nonce"` branch: a required nonce then an optional target. -/
def decodeNonceTag (rest : List Json) : Except String Tag :=
  match rest with
  | [] => .ok (.Other "nonce" [])
  | nj :: rest1 => do
    let n ← getStr nj
    match rest1 with
    | [] => .ok (.Nonce n none)
    | tj :: rest2 => do
      let t ← getStr tj
      if rest2.isEmpty then .ok (.Nonce n (some t))
      else .error "trailing elements"

/-- A branch with an implicit empty-string value (`"d"` and `"parameter"`). -/
def decodeImplicitStr (ctor : String → Tag) (rest : List Json) :
    Except String Tag :=
  match rest with
  | [] => .ok (ctor "")
  | vj :: rest1 => do
    let v ← getStr vj
    if rest1.isEmpty then .ok (ctor v) else .error "trailing elements"

/-- `TagVisitor::visit_seq`: decode a JSON array's elements into a `Tag`. -/
def Tag.deserializeTag (els : List Json) : Except String Tag :=
  match els with
  | [] => .ok .Empty
  | namej :: rest => do
    let name ← getStr namej
    if name = "a" then decodeATag rest
    else if name = "content-warning" then decodeOneStr name Tag.ContentWarning rest
    else if name = "delegation" then decodeDelegationTag rest
    else if name = "e" then decodeETag rest
    else if name = "expiration" then decodeExpirationTag rest
    else if name = "p" then decodePTag rest
    else if name = "t" then decodeOneStr name Tag.Hashtag rest
    else if name = "r" then decodeRTag rest
    else if name = "g" then decodeOneStr name Tag.Geohash rest
    else if name = "d" then decodeImplicitStr Tag.Identifier rest
    else if name = "subject" then decodeOneStr name Tag.Subject rest
    else if name = "nonce" then decodeNonceTag rest
    else if name = "parameter" then decodeImplicitStr Tag.Parameter rest
    else if name = "title" then decodeOneStr name Tag.Title rest
    else do
      let data ← getStrs rest
      .ok (.Other name data)

/-! ## Events (`src/types/event.rs`) -/

/-- The main event type. -/
structure Event where
  id : Id
  pubkey : PublicKey
  created_at : Unixtime
  kind : EventKind
  tags : List Tag
  content : String
  ots : Option String
  sig : Signature
deriving DecidableEq

/-- Data used to construct an event. -/
structure PreEvent where
  pubkey : PublicKey
  created_at : Unixtime
  kind : EventKind
  tags : List Tag
  content : String
  ots : Option String
deriving DecidableEq

/-- Data about a Zap. -/
structure ZapData where
  id : Id
  amount : MilliSatoshi
  pubkey : PublicKey
deriving DecidableEq

/-- Serialization of each field as `serde_json::to_string` sees it. -/
def pubkeyJson (pk : PublicKey) : Json := Json.str (hexEncode pk.bytes)

/-- `Unixtime` serializes as a JSON number. -/
def unixtimeJson (t : Unixtime) : Json := Json.num t

/-- `EventKind` serializes as its `u32` value. -/
def kindJson (k : EventKind) : Json := Json.num (Int.ofNat k)

/-- `Vec<Tag>` serializes as an array of per-tag arrays. -/
def tagsJson (tags : List Tag) : Json :=
  Json.arr (tags.map (fun t => Json.arr t.serializeTag))

/--
`serialize_inner_event!`: the canonical text
`format!("[0,{},{},{},{},{}]", ..)` over the five JSON-encoded fields.
-/
def serialize_inner_event (pubkey : PublicKey) (created_at : Unixtime)
    (kind : EventKind) (tags : List Tag) (content : String) : String :=
  "[0," ++ Json.render (pubkeyJson pubkey) ++ ","
    ++ Json.render (unixtimeJson created_at) ++ ","
    ++ Json.render (kindJson kind) ++ ","
    ++ Json.render (tagsJson tags) ++ ","
    ++ Json.render (Json.str content) ++ "]"

/-- The canonical serialization of an event's own five hashed fields. -/
def serializeEvent (e : Event) : String :=
  serialize_inner_event e.pubkey e.created_at e.kind e.tags e.content

/-- `Event::hash`: SHA-256 over the canonical serialization.  (The Rust
function is fallible only through `serde_json` encoding; the model is total.) -/
def Event.hash (input : PreEvent) : Id :=
  ⟨sha256 (utf8Bytes (serialize_inner_event input.pubkey input.created_at
      input.kind input.tags input.content))⟩

/-- `Event::new`: hash, sign the id, assemble. -/
def Event.new (input : PreEvent) (privkey : PrivateKey) : Event :=
  let id := Event.hash input
  { id := id
    pubkey := input.pubkey
    created_at := input.created_at
    kind := input.kind
    tags := input.tags
    content := input.content
    ots := input.ots
    sig := privkey.sign_id id }

/--
`Event::verify`: verify the signature over the serialized bytes, recompute
the digest, optionally reject future-dated events, and compare the digest
with the stored id — in the source's order.
-/
def Event.verify (e : Event) (maxtime : Option Unixtime) : Except Error Unit :=
  let serialized := serializeEvent e
  if ¬ schnorr_verify e.pubkey (utf8Bytes serialized) e.sig then
    .error .SignatureMismatch
  else
    let idBytes := sha256 (utf8Bytes serialized)
    if (match maxtime with
        | some mt => decide (e.created_at > mt)
        | none => false) then .error .EventInFuture
    else if idBytes ≠ e.id.bytes then .error .HashMismatch
    else .ok ()

/-- Does a tag match `Tag::Nonce { .. }`? -/
def isNonceTag : Tag → Bool
  | .Nonce _ _ => true
  | _ => false

/-- Does a tag match `Tag::Event { .. }`? -/
def isEventTag : Tag → Bool
  | .Event _ _ _ => true
  | _ => false

/-- Does a tag match `Tag::Delegation { .. }`? -/
def isDelegationTag : Tag → Bool
  | .Delegation _ _ _ => true
  | _ => false

/--
`Event::new_with_pow`, given the attempt value the worker pool terminated
with: strip pre-existing nonce tags, append a fresh `Nonce` tag recording
the target, rewrite it at its index with the winning attempt, rehash and
sign once.  The concurrent search itself only determines `winning_nonce`;
its exit condition is that the candidate's hash meets the target.
-/
def Event.new_with_pow (input : PreEvent) (privkey : PrivateKey)
    (zero_bits : Nat) (winning_nonce : Nat) : Event :=
  let target := some (natToStr zero_bits)
  let tags1 := input.tags.filter (fun t => !(isNonceTag t))
  let tags2 := tags1 ++ [Tag.Nonce "0" target]
  let index := tags2.length - 1
  let finalTags := tags2.set index (Tag.Nonce (natToStr winning_nonce) target)
  let pre' : PreEvent :=
    { pubkey := input.pubkey, created_at := input.created_at,
      kind := input.kind, tags := finalTags, content := input.content,
      ots := input.ots }
  let id := Event.hash pre'
  { id := id
    pubkey := input.pubkey
    created_at := input.created_at
    kind := input.kind
    tags := finalTags
    content := input.content
    ots := input.ots
    sig := privkey.sign_id id }

/-- `get_leading_zero_bits`: byte-wise leading-zero count over a digest. -/
def get_leading_zero_bits : List Nat → Nat
  | [] => 0
  | b :: rest =>
    if b = 0 then 8 + get_leading_zero_bits rest
    else
      if 128 ≤ b then 0 else if 64 ≤ b then 1 else if 32 ≤ b then 2
      else if 16 ≤ b then 3 else if 8 ≤ b then 4 else if 4 ≤ b then 5
      else if 2 ≤ b then 6 else 7

/-- The target-scan loop inside `Event::pow`: find the first `Nonce` tag,
read its target if present (`0` when absent or unparsable), then stop. -/
def powTargetLoop : List Tag → Nat
  | [] => 0
  | .Nonce _ target :: _ =>
    (match target with
     | some t => (parseU8 t).getD 0
     | none => 0)
  | _ :: rest => powTargetLoop rest

/-- `Event::pow`: the minimum of the id's actual leading zero bits and the
declared nonce target. -/
def Event.pow (e : Event) : Nat :=
  let zeroes := get_leading_zero_bits e.id.bytes
  let target_zeroes := powTargetLoop e.tags
  min zeroes target_zeroes

/-- Convert an optional recommended relay url as the source does on every
read path: `recommended_relay_url.and_then(RelayUrl::try_from_unchecked_url)`. -/
def relayOpt (o : Option UncheckedUrl) : Option RelayUrl :=
  o.bind RelayUrl.try_from_unchecked_url

/-- First `Event` tag whose marker is exactly `some m`. -/
def findEventWithMarker (m : String) : List Tag → Option (Id × Option RelayUrl)
  | [] => none
  | .Event id rru marker :: rest =>
    if marker = some m then some (id, relayOpt rru)
    else findEventWithMarker m rest
  | _ :: rest => findEventWithMarker m rest

/-- `Event::replies_to`. -/
def Event.replies_to (e : Event) : Option (Id × Option RelayUrl) :=
  if ¬ e.kind.is_feed_displayable then none
  else if e.kind = EventKind.Repost then none
  else if (e.tags.filter isEventTag).length = 0 then none
  else
    match findEventWithMarker "reply" e.tags with
    | some r => some r
    | none =>
      match findEventWithMarker "root" e.tags with
      | some r => some r
      | none =>
        match e.tags.reverse.find? isEventTag with
        | some (.Event id rru none) => some (id, relayOpt rru)
        | _ => none

/-- The body of `Event::delegation`: the loop over tags returns at the first
`Delegation` tag. -/
def delegationLoop (e : Event) : List Tag → EventDelegation
  | [] => .NotDelegated
  | .Delegation pubkey conditions sig :: _ =>
    (match Signature.try_from_hex_string sig with
     | .error msg => .InvalidDelegation msg
     | .ok signature =>
       match PublicKey.try_from_hex_string pubkey with
       | .error msg => .InvalidDelegation msg
       | .ok delegator_pubkey =>
         match conditions.verify_signature delegator_pubkey e.pubkey signature with
         | .error msg => .InvalidDelegation msg
         | .ok _ =>
           if (match conditions.kind with
               | some k => e.kind != k
               | none => false) then
             .InvalidDelegation "Event Kind not delegated"
           else if (match conditions.created_after with
               | some created_after => decide (e.created_at < created_after)
               | none => false) then
             .InvalidDelegation "Event created before delegation started"
           else if (match conditions.created_before with
               | some created_before => decide (e.created_at > created_before)
               | none => false) then
             .InvalidDelegation "Event created after delegation ended"
           else .DelegatedBy delegator_pubkey)
  | _ :: rest => delegationLoop e rest

/-- `Event::delegation`. -/
def Event.delegation (e : Event) : EventDelegation := delegationLoop e e.tags

/-! ### Zap receipts -/

/-- Modelled from the spec: the external invoice decoder's result —
`parse(string) -> {payee key, amount, signature-valid}`. -/
structure Invoice where
  payee : Option (List Nat)
  amount_msat : Option Nat
  sig_ok : Bool

/-- Modelled from the spec: the external `lightning_invoice` parser, as a
trivial tagged format `inv:<payee-hex-or-empty>:<amount-or-empty>:<ok|bad>`
carrying exactly the fields the interface exposes. -/
def Invoice.from_str (s : String) : Except String Invoice :=
  match (splitOnChar ':' s.data).map (fun l => (⟨l⟩ : String)) with
  | ["inv", pk, amt, sg] =>
    let payee := if isHexOfLength 66 pk then some (hexDecodeChars pk.data) else none
    let amount := parseNatStr amt
    if pk ≠ "" ∧ payee = none then .error "bad payee key"
    else if amt ≠ "" ∧ amount = none then .error "bad amount"
    else .ok ⟨payee, amount, sg = "ok"⟩
  | _ => .error "invoice parse failure"

/-- Modelled from the spec: `check_signature` on a parsed invoice. -/
def Invoice.check_signature (inv : Invoice) : Except String Unit :=
  if inv.sig_ok then .ok () else .error "invalid invoice signature"

/-- Modelled from the spec: an explicit payee key, or one recovered from the
invoice signature; recovery always yields a key. -/
def Invoice.payee_or_recovered (inv : Invoice) : List Nat :=
  match inv.payee with
  | some pk => pk
  | none => 2 :: sha256 (utf8Bytes "recovered payee key")

/-- Modelled from the spec: `PublicKey::from_bytes` over the 32-byte x-only
serialization of the payee key (the leading parity byte dropped). -/
def PublicKey.from_bytes (bytes : List Nat) : Except String PublicKey :=
  if bytes.length = 32 then .ok ⟨bytes⟩ else .error "invalid public key bytes"

/-- The state the `zaps` loop threads through the tags. -/
structure ZapScan where
  zapped_id : Option Id
  zapped_amount : Option MilliSatoshi
  zapped_pubkey : Option PublicKey

/-- One step of the `zaps` tag loop: `bolt11` `Other` tags are decoded
(each failure is an early error); every `Event` tag overwrites the id. -/
def zapsStep (st : ZapScan) : Tag → Except Error ZapScan
  | .Other tag data =>
    if tag ≠ "bolt11" then .ok st
    else
      match data with
      | [] => .error (.ZapReceipt "missing bolt11 tag value")
      | d0 :: _ =>
        match Invoice.from_str d0 with
        | .error e => .error (.ZapReceipt ("bolt11 failed to parse: " ++ e))
        | .ok invoice =>
          match invoice.check_signature with
          | .error e => .error (.ZapReceipt ("bolt11 signature check failed: " ++ e))
          | .ok _ =>
            let xonly := invoice.payee_or_recovered.drop 1
            match PublicKey.from_bytes xonly with
            | .error e => .error (.ZapReceipt ("payee public key error: " ++ e))
            | .ok pubkey =>
              match invoice.amount_msat with
              | some u =>
                .ok { st with zapped_pubkey := some pubkey,
                              zapped_amount := some u }
              | none => .error (.ZapReceipt "Amount missing from zap receipt")
  | .Event id _ _ => .ok { st with zapped_id := some id }
  | _ => .ok st

/-- The `zaps` loop over the tag list. -/
def zapsLoop (st : ZapScan) : List Tag → Except Error ZapScan
  | [] => .ok st
  | t :: rest => do
    let st' ← zapsStep st t
    zapsLoop st' rest

/-- `Event::zaps`. -/
def Event.zaps (e : Event) : Except Error (Option ZapData) :=
  if e.kind ≠ EventKind.Zap then .ok none
  else do
    let st ← zapsLoop ⟨none, none, none⟩ e.tags
    match st.zapped_id with
    | none => .ok none
    | some id =>
      match st.zapped_amount with
      | none => .error (.ZapReceipt "Missing amount")
      | some amount =>
        match st.zapped_pubkey with
        | none => .error (.ZapReceipt "Missing payee public key")
        | some pubkey => .ok (some ⟨id, amount, pubkey⟩)

/-! ## Claim C1: the canonical serialization -/

/-- Is a JSON value a scalar (not an array)? -/
def jsonIsScalar : Json → Bool
  | .arr _ => false
  | _ => true

/-- Array-nesting depth bound on a JSON value. -/
def jsonDepthLE : Nat → Json → Bool
  | _, .str _ => true
  | _, .num _ => true
  | 0, .arr _ => false
  | d + 1, .arr l => l.all (jsonDepthLE d)

/--
The specification's description of the canonical text: the compact JSON
rendering of the six-element array `[0, pubkey, created_at, kind, tags,
content]` — fields in this fixed order, comma separated inside square
brackets, leading literal `0`, no whitespace.
-/
def canonicalSerialization (pubkey : PublicKey) (created_at : Unixtime)
    (kind : EventKind) (tags : List Tag) (content : String) : String :=
  Json.render (Json.arr
    [Json.num 0, pubkeyJson pubkey, unixtimeJson created_at, kindJson kind,
     tagsJson tags, Json.str content])

theorem jsonRenderD_str (d : Nat) (s : String) :
    jsonRenderD d (Json.str s) = jsonRenderStr s := by
  cases d <;> rfl

theorem jsonRenderD_num (d : Nat) (i : Int) :
    jsonRenderD d (Json.num i) = intToStr i := by
  cases d <;> rfl

theorem jsonDepthLE_scalar {j : Json} (h : jsonIsScalar j = true) (d : Nat) :
    jsonDepthLE d j = true := by
  cases j with
  | str s => cases d <;> rfl
  | num i => cases d <;> rfl
  | arr l => simp [jsonIsScalar] at h

theorem jsonRenderD_fuel :
    ∀ (d : Nat) (j : Json) (d' : Nat), jsonDepthLE d j = true →
      jsonDepthLE d' j = true → jsonRenderD d j = jsonRenderD d' j := by
  intro d
  induction d with
  | zero =>
    intro j d' h _
    cases j with
    | str s => rw [jsonRenderD_str, jsonRenderD_str]
    | num i => rw [jsonRenderD_num, jsonRenderD_num]
    | arr l => exact absurd h (by simp [jsonDepthLE])
  | succ d ih =>
    intro j d' h h'
    cases j with
    | str s => rw [jsonRenderD_str, jsonRenderD_str]
    | num i => rw [jsonRenderD_num, jsonRenderD_num]
    | arr l =>
      cases d' with
      | zero => exact absurd h' (by simp [jsonDepthLE])
      | succ d' =>
        simp only [jsonRenderD]
        have hmap : List.map (jsonRenderD d) l = List.map (jsonRenderD d') l := by
          refine List.map_congr_left (fun j' hj' => ?_)
          have hd := List.all_eq_true.mp h j' hj'
          have hd' := List.all_eq_true.mp h' j' hj'
          exact ih j' d' hd hd'
        rw [hmap]

theorem serializeTag_scalars (t : Tag) :
    ∀ j ∈ t.serializeTag, jsonIsScalar j = true := by
  cases t with
  | Address kind pubkey d relay_url =>
    cases relay_url <;> simp [Tag.serializeTag, jsonIsScalar]
  | ContentWarning w => simp [Tag.serializeTag, jsonIsScalar]
  | Delegation p c s => simp [Tag.serializeTag, jsonIsScalar]
  | Event id rru marker =>
    cases rru <;> cases marker <;> simp [Tag.serializeTag, jsonIsScalar]
  | Expiration t => simp [Tag.serializeTag, jsonIsScalar]
  | Pubkey p rru petname =>
    cases rru <;> cases petname <;> simp [Tag.serializeTag, jsonIsScalar]
  | Hashtag h => simp [Tag.serializeTag, jsonIsScalar]
  | Reference url marker =>
    cases marker <;> simp [Tag.serializeTag, jsonIsScalar]
  | Geohash g => simp [Tag.serializeTag, jsonIsScalar]
  | Identifier i => simp [Tag.serializeTag, jsonIsScalar]
  | Subject s => simp [Tag.serializeTag, jsonIsScalar]
  | Nonce n target =>
    cases target <;> simp [Tag.serializeTag, jsonIsScalar]
  | Parameter p => simp [Tag.serializeTag, jsonIsScalar]
  | Title t => simp [Tag.serializeTag, jsonIsScalar]
  | Other tag data =>
    intro j hj
    simp only [Tag.serializeTag, List.mem_cons, List.mem_map] at hj
    rcases hj with rfl | ⟨s, _, rfl⟩ <;> rfl
  | Empty => simp [Tag.serializeTag]

theorem jsonDepthLE_tagsJson (tags : List Tag) (d : Nat) :
    jsonDepthLE (d + 2) (tagsJson tags) = true := by
  simp only [tagsJson, jsonDepthLE, List.all_eq_true, List.mem_map]
  rintro j ⟨t, _, rfl⟩
  simp only [jsonDepthLE, List.all_eq_true]
  intro j' hj'
  exact jsonDepthLE_scalar (serializeTag_scalars t j' hj') d

theorem render_tagsJson_fuel (tags : List Tag) :
    jsonRenderD 999999 (tagsJson tags) = Json.render (tagsJson tags) :=
  jsonRenderD_fuel 999999 (tagsJson tags) 1000000
    (jsonDepthLE_tagsJson tags 999997) (jsonDepthLE_tagsJson tags 999998)

/--
C1.  For every `(pubkey, created_at, kind, tags, content)`, the canonical
serialization used for hashing and signing is exactly the compact rendering
of the JSON array `[0,<pubkey-json>,<created_at-json>,<kind-json>,
<tags-json>,<content-json>]` — the five fields' JSON encodings in this
fixed order, comma separated inside square brackets with a leading literal
`0` and no whitespace — and the event id is the SHA-256 digest of the bytes
of that text.
-/
theorem canonical_serialization_and_id (input : PreEvent) :
    serialize_inner_event input.pubkey input.created_at input.kind
        input.tags input.content
      = canonicalSerialization input.pubkey input.created_at input.kind
          input.tags input.content
    ∧ Event.hash input
      = ⟨sha256 (utf8Bytes (canonicalSerialization input.pubkey
          input.created_at input.kind input.tags input.content))⟩ := by
  have head_merge : ∀ R : String, ("[0," : String) ++ R = "[" ++ ("0" ++ ("," ++ R)) := by
    intro R
    have hlit : ("[0," : String) = ("[" ++ "0") ++ "," := rfl
    rw [hlit, String.append_assoc, String.append_assoc]
  have hmain : ∀ (pk : PublicKey) (t : Unixtime) (k : EventKind)
      (tags : List Tag) (content : String),
      serialize_inner_event pk t k tags content
        = canonicalSerialization pk t k tags content := by
    intro pk t k tags content
    have hexp : canonicalSerialization pk t k tags content
        = "[" ++ (jsonRenderD 999999 (Json.num 0) ++ ","
            ++ (jsonRenderD 999999 (pubkeyJson pk) ++ ","
            ++ (jsonRenderD 999999 (unixtimeJson t) ++ ","
            ++ (jsonRenderD 999999 (kindJson k) ++ ","
            ++ (jsonRenderD 999999 (tagsJson tags) ++ ","
            ++ jsonRenderD 999999 (Json.str content)))))) ++ "]" := rfl
    rw [hexp, render_tagsJson_fuel]
    simp only [pubkeyJson, unixtimeJson, kindJson, jsonRenderD_str,
      jsonRenderD_num, serialize_inner_event, Json.render]
    rw [show intToStr 0 = "0" from rfl]
    simp only [String.append_assoc]
    rw [head_merge]
  refine ⟨hmain _ _ _ _ _, ?_⟩
  show Id.mk (sha256 (utf8Bytes (serialize_inner_event _ _ _ _ _))) = _
  rw [hmain]

/-! ## Claim C8: `pow` returns `min(actual_bits, declared_target)` -/

/-- The claim's reading of the declared target: the value declared in the
(first) `Nonce` tag's target field, `0` when absent or unparsable. -/
def declaredPowTarget (tags : List Tag) : Nat :=
  match tags.find? isNonceTag with
  | some (.Nonce _ (some t)) => (parseU8 t).getD 0
  | _ => 0

theorem powTargetLoop_eq_declared (tags : List Tag) :
    powTargetLoop tags = declaredPowTarget tags := by
  induction tags with
  | nil => rfl
  | cons t rest ih =>
    cases t with
    | Nonce n target =>
      cases target <;> simp [powTargetLoop, declaredPowTarget, List.find?, isNonceTag]
    | Address k p d r => simpa [powTargetLoop, declaredPowTarget, List.find?, isNonceTag] using ih
    | ContentWarning w => simpa [powTargetLoop, declaredPowTarget, List.find?, isNonceTag] using ih
    | Delegation p c s => simpa [powTargetLoop, declaredPowTarget, List.find?, isNonceTag] using ih
    | Event i r m => simpa [powTargetLoop, declaredPowTarget, List.find?, isNonceTag] using ih
    | Expiration t => simpa [powTargetLoop, declaredPowTarget, List.find?, isNonceTag] using ih
    | Pubkey p r pn => simpa [powTargetLoop, declaredPowTarget, List.find?, isNonceTag] using ih
    | Hashtag h => simpa [powTargetLoop, declaredPowTarget, List.find?, isNonceTag] using ih
    | Reference u m => simpa [powTargetLoop, declaredPowTarget, List.find?, isNonceTag] using ih
    | Geohash g => simpa [powTargetLoop, declaredPowTarget, List.find?, isNonceTag] using ih
    | Identifier i => simpa [powTargetLoop, declaredPowTarget, List.find?, isNonceTag] using ih
    | Subject s => simpa [powTargetLoop, declaredPowTarget, List.find?, isNonceTag] using ih
    | Parameter p => simpa [powTargetLoop, declaredPowTarget, List.find?, isNonceTag] using ih
    | Title t => simpa [powTargetLoop, declaredPowTarget, List.find?, isNonceTag] using ih
    | Other tg dt => simpa [powTargetLoop, declaredPowTarget, List.find?, isNonceTag] using ih
    | Empty => simpa [powTargetLoop, declaredPowTarget, List.find?, isNonceTag] using ih

/--
C8.  For every event, `pow()` returns exactly
`min(actual_bits, declared_target)`: the byte-wise leading-zero count of the
event id (`get_leading_zero_bits`, most significant byte first) capped at
the target declared in the first `Nonce` tag's target field (0 when the tag
or its target is absent or unparsable).
-/
theorem pow_eq_min_actual_declared (e : Event) :
    Event.pow e = min (get_leading_zero_bits e.id.bytes) (declaredPowTarget e.tags) := by
  unfold Event.pow
  rw [powTargetLoop_eq_declared]

/-! ## Claim C10: `tagname` versus the wire name, and the `Empty` panic -/

/-- The wire name of a tag: the first element its serialization emits. -/
def tagWireName (t : Tag) : Option String :=
  match t.serializeTag with
  | Json.str s :: _ => some s
  | _ => none

/-- Does a tag match `Tag::Address { .. }`? -/
def isAddressTag : Tag → Bool
  | .Address _ _ _ _ => true
  | _ => false

/--
C10 counterexample.  `tagname` does not return the wire name for every
non-`Empty` variant: on an `Address` tag it returns `"address"` while the
serializer emits `"a"` as the first element.
-/
theorem tagname_address_mismatch :
    Tag.tagname (Tag.Address 30023
        "0000000000000000000000000000000000000000000000000000000000000000" "d" none)
      = some "address"
    ∧ tagWireName (Tag.Address 30023
        "0000000000000000000000000000000000000000000000000000000000000000" "d" none)
      = some "a"
    ∧ ("address" : String) ≠ "a" := by
  refine ⟨rfl, rfl, by decide⟩

/--
C10 amended.  `tagname` is total except on `Empty`: it returns the variant's
wire name for every variant other than `Address` (where it returns
`"address"` although the wire name is `"a"`) and `Empty`; on `Empty` it
panics (modelled as `none`), and `Empty` is reachable from attacker
controlled wire data since decoding an empty array produces `Empty`.
-/
theorem tagname_total_except_empty :
    (∀ t : Tag, t ≠ Tag.Empty → isAddressTag t = false → Tag.tagname t = tagWireName t)
    ∧ (∀ (k : EventKind) (p : PublicKeyHex) (d : String) (r : Option UncheckedUrl),
        Tag.tagname (Tag.Address k p d r) = some "address"
        ∧ tagWireName (Tag.Address k p d r) = some "a")
    ∧ Tag.tagname Tag.Empty = none
    ∧ Tag.deserializeTag [] = Except.ok Tag.Empty := by
  refine ⟨?_, ?_, rfl, rfl⟩
  · intro t hne haddr
    cases t with
    | Address k p d r => simp [isAddressTag] at haddr
    | Empty => exact absurd rfl hne
    | Event id rru marker => cases rru <;> cases marker <;> rfl
    | Pubkey p rru pn => cases rru <;> cases pn <;> rfl
    | Reference u m => cases m <;> rfl
    | Nonce n tg => cases tg <;> rfl
    | _ => rfl
  · intro k p d r
    cases r <;> exact ⟨rfl, rfl⟩

/-- C10 witness: the amended theorem applied at concrete tags. -/
theorem tagname_total_except_empty_witness :
    Tag.tagname (Tag.Hashtag "nostr") = tagWireName (Tag.Hashtag "nostr")
    ∧ Tag.tagname Tag.Empty = none :=
  ⟨tagname_total_except_empty.1 (Tag.Hashtag "nostr") (by decide) (by decide),
   tagname_total_except_empty.2.2.1⟩

/-! ## Claim C7: `new_with_pow` -/

theorem set_last_append {α : Type} (l : List α) (a b : α) :
    (l ++ [a]).set l.length b = l ++ [b] := by
  induction l with
  | nil => rfl
  | cons x xs ih => simp [List.set, ih]

theorem filter_of_antifilter (p : Tag → Bool) (l : List Tag) :
    (l.filter (fun t => !(p t))).filter p = [] := by
  induction l with
  | nil => rfl
  | cons x xs ih => by_cases h : p x <;> simp [List.filter, h, ih]

theorem set_last_of_append (l : List Tag) (a b : Tag) :
    (l ++ [a]).set ((l ++ [a]).length - 1) b = l ++ [b] := by
  have hlen : (l ++ [a]).length - 1 = l.length := by simp
  rw [hlen]
  exact set_last_append l a b

theorem new_with_pow_tags (input : PreEvent) (privkey : PrivateKey)
    (zero_bits winning_nonce : Nat) :
    (Event.new_with_pow input privkey zero_bits winning_nonce).tags
      = input.tags.filter (fun t => !(isNonceTag t))
          ++ [Tag.Nonce (natToStr winning_nonce) (some (natToStr zero_bits))] := by
  show (input.tags.filter (fun t => !(isNonceTag t))
      ++ [Tag.Nonce "0" (some (natToStr zero_bits))]).set
        ((input.tags.filter (fun t => !(isNonceTag t))
          ++ [Tag.Nonce "0" (some (natToStr zero_bits))]).length - 1)
        (Tag.Nonce (natToStr winning_nonce) (some (natToStr zero_bits)))
    = _
  exact set_last_of_append _ _ _

theorem new_with_pow_id (input : PreEvent) (privkey : PrivateKey)
    (zero_bits winning_nonce : Nat) :
    (Event.new_with_pow input privkey zero_bits winning_nonce).id
      = Event.hash
        { pubkey := input.pubkey, created_at := input.created_at,
          kind := input.kind,
          tags := input.tags.filter (fun t => !(isNonceTag t))
            ++ [Tag.Nonce (natToStr winning_nonce) (some (natToStr zero_bits))],
          content := input.content, ots := input.ots } := by
  show Event.hash
      { pubkey := input.pubkey, created_at := input.created_at,
        kind := input.kind,
        tags := (input.tags.filter (fun t => !(isNonceTag t))
          ++ [Tag.Nonce "0" (some (natToStr zero_bits))]).set
            ((input.tags.filter (fun t => !(isNonceTag t))
              ++ [Tag.Nonce "0" (some (natToStr zero_bits))]).length - 1)
            (Tag.Nonce (natToStr winning_nonce) (some (natToStr zero_bits))),
        content := input.content, ots := input.ots }
    = _
  rw [set_last_of_append]

/--
C7.  For every PreEvent, private key and target bit count, whenever the
worker pool's exit condition holds of a nonce value — the hash of the
candidate carrying that nonce has at least the target's leading zero bits —
`new_with_pow` returns an event whose id meets the target, whose tag list
contains exactly one `Nonce` tag (pre-existing `Nonce` tags stripped, one
appended recording the target), and whose `created_at` is the input's,
unchanged.
-/
theorem new_with_pow_properties (input : PreEvent) (privkey : PrivateKey)
    (zero_bits winning_nonce : Nat)
    (hfound : zero_bits ≤ get_leading_zero_bits (Event.hash
      { pubkey := input.pubkey, created_at := input.created_at,
        kind := input.kind,
        tags := input.tags.filter (fun t => !(isNonceTag t))
          ++ [Tag.Nonce (natToStr winning_nonce) (some (natToStr zero_bits))],
        content := input.content, ots := input.ots }).bytes) :
    zero_bits ≤ get_leading_zero_bits
        (Event.new_with_pow input privkey zero_bits winning_nonce).id.bytes
    ∧ (Event.new_with_pow input privkey zero_bits winning_nonce).tags.filter isNonceTag
        = [Tag.Nonce (natToStr winning_nonce) (some (natToStr zero_bits))]
    ∧ (Event.new_with_pow input privkey zero_bits winning_nonce).created_at
        = input.created_at := by
  refine ⟨?_, ?_, rfl⟩
  · rw [new_with_pow_id]
    exact hfound
  · rw [new_with_pow_tags, List.filter_append, filter_of_antifilter]
    rfl

/-- A concrete PreEvent for the C7 witness, with a pre-existing `Nonce` tag
that mining must strip. -/
def powPre : PreEvent :=
  { pubkey := ⟨List.replicate 32 1⟩, created_at := 5, kind := 1,
    tags := [Tag.Nonce "7" (some "8"), Tag.Hashtag "x"], content := "hi",
    ots := none }

/-- C7 witness: the theorem applied at target 0, where every nonce satisfies
the exit condition. -/
theorem new_with_pow_properties_witness :
    0 ≤ get_leading_zero_bits
        (Event.new_with_pow powPre ⟨List.replicate 32 2⟩ 0 0).id.bytes
    ∧ (Event.new_with_pow powPre ⟨List.replicate 32 2⟩ 0 0).tags.filter isNonceTag
        = [Tag.Nonce (natToStr 0) (some (natToStr 0))]
    ∧ (Event.new_with_pow powPre ⟨List.replicate 32 2⟩ 0 0).created_at
        = powPre.created_at :=
  new_with_pow_properties powPre ⟨List.replicate 32 2⟩ 0 0 (Nat.zero_le _)

/-! ## Claim C9: `zaps` on a zap receipt with no Event tag -/

/-- Does a tag pass the `bolt11` processing pipeline without error (a data
value present, invoice parse, signature check, payee key, amount)?
Non-`bolt11` tags pass trivially. -/
def zapTagOk : Tag → Bool
  | .Other tag data =>
    if tag ≠ "bolt11" then true
    else
      match data with
      | [] => false
      | d0 :: _ =>
        match Invoice.from_str d0 with
        | .error _ => false
        | .ok invoice =>
          invoice.sig_ok
            && (match PublicKey.from_bytes (invoice.payee_or_recovered.drop 1) with
                | .ok _ => true
                | .error _ => false)
            && invoice.amount_msat.isSome
  | _ => true

/-- A zap-receipt event with a malformed (empty-data) `bolt11` tag and no
`Event` tag. -/
def zapBoltEvent : Event :=
  { id := ⟨List.replicate 32 0⟩, pubkey := ⟨List.replicate 32 0⟩,
    created_at := 0, kind := 9735, tags := [Tag.Other "bolt11" []],
    content := "", ots := none, sig := ⟨[]⟩ }

/--
C9 counterexample.  A zap-receipt event with no `Event` tag does not always
return "nothing": a `bolt11` tag with no value makes `zaps()` return an
error before the no-referenced-event check is reached.
-/
theorem zaps_error_without_event_tag :
    zapBoltEvent.kind = EventKind.Zap
    ∧ (∀ t ∈ zapBoltEvent.tags, isEventTag t = false)
    ∧ Event.zaps zapBoltEvent
        = Except.error (Error.ZapReceipt "missing bolt11 tag value") := by
  refine ⟨rfl, by decide, rfl⟩

/-- A step on a non-`Event` tag that passes the `bolt11` pipeline succeeds
and leaves the scanned zapped id unchanged. -/
theorem zapsStep_ok_keeps_id (st : ZapScan) (t : Tag)
    (hne : isEventTag t = false) (hok : zapTagOk t = true) :
    ∃ st2, zapsStep st t = .ok st2 ∧ st2.zapped_id = st.zapped_id := by
  cases t with
  | Other tag data =>
    by_cases hb : tag = "bolt11"
    · subst hb
      unfold zapTagOk at hok
      unfold zapsStep
      dsimp only [] at hok ⊢
      rw [if_neg (not_not_intro rfl)] at hok ⊢
      cases data with
      | nil =>
        dsimp only [] at hok
        exact absurd hok (by decide)
      | cons d0 drest =>
        dsimp only [] at hok ⊢
        cases hinv : Invoice.from_str d0 with
        | error e2 =>
          rw [hinv] at hok
          dsimp only [] at hok
          exact absurd hok (by decide)
        | ok invoice =>
          rw [hinv] at hok
          dsimp only [] at hok ⊢
          simp only [Bool.and_eq_true] at hok
          obtain ⟨⟨hsig, hpb⟩, hamt⟩ := hok
          rw [show Invoice.check_signature invoice = Except.ok () from by
            unfold Invoice.check_signature
            rw [if_pos hsig]]
          dsimp only []
          cases hpb2 : PublicKey.from_bytes (invoice.payee_or_recovered.drop 1) with
          | error e2 =>
            rw [hpb2] at hpb
            dsimp only [] at hpb
            exact absurd hpb (by decide)
          | ok pubkey =>
            dsimp only []
            cases hamt2 : invoice.amount_msat with
            | none =>
              rw [hamt2] at hamt
              exact absurd hamt (by decide)
            | some u =>
              dsimp only []
              exact ⟨_, rfl, by cases st; rfl⟩
    · refine ⟨st, ?_, rfl⟩
      unfold zapsStep
      dsimp only []
      rw [if_pos hb]
  | Event id rru m => simp [isEventTag] at hne
  | Address kind pubkey d ru => exact ⟨st, rfl, rfl⟩
  | ContentWarning w => exact ⟨st, rfl, rfl⟩
  | Delegation pk c sg => exact ⟨st, rfl, rfl⟩
  | Expiration t2 => exact ⟨st, rfl, rfl⟩
  | Pubkey pk rru pn => exact ⟨st, rfl, rfl⟩
  | Hashtag h2 => exact ⟨st, rfl, rfl⟩
  | Reference u2 m2 => exact ⟨st, rfl, rfl⟩
  | Geohash g2 => exact ⟨st, rfl, rfl⟩
  | Identifier i2 => exact ⟨st, rfl, rfl⟩
  | Subject s2 => exact ⟨st, rfl, rfl⟩
  | Nonce n2 tg => exact ⟨st, rfl, rfl⟩
  | Parameter p2 => exact ⟨st, rfl, rfl⟩
  | Title ti => exact ⟨st, rfl, rfl⟩
  | Empty => exact ⟨st, rfl, rfl⟩

/-- The `zaps` loop succeeds over `Event`-free tags passing the `bolt11`
pipeline, and the scanned zapped id comes out as it went in. -/
theorem zapsLoop_ok_keeps_id (tags : List Tag) :
    ∀ st : ZapScan, (∀ t ∈ tags, isEventTag t = false) →
    (∀ t ∈ tags, zapTagOk t = true) →
    ∃ st2, zapsLoop st tags = .ok st2 ∧ st2.zapped_id = st.zapped_id := by
  induction tags with
  | nil => exact fun st _ _ => ⟨st, rfl, rfl⟩
  | cons t rest ih =>
    intro st hnoe hok
    obtain ⟨st1, hstep, hid1⟩ := zapsStep_ok_keeps_id st t
      (hnoe t (List.mem_cons_self _ _)) (hok t (List.mem_cons_self _ _))
    obtain ⟨st2, hloop, hid2⟩ := ih st1
      (fun x hx => hnoe x (List.mem_cons_of_mem _ hx))
      (fun x hx => hok x (List.mem_cons_of_mem _ hx))
    refine ⟨st2, ?_, hid2.trans hid1⟩
    show (do
      let st' ← zapsStep st t
      zapsLoop st' rest) = .ok st2
    rw [hstep]
    exact hloop

/--
C9 amended.  A zap-receipt event with no `Event` tag returns "nothing"
(`Ok(None)`), never an error, whenever every `bolt11` tag it carries
processes successfully (a value present, a parseable invoice with a valid
signature, payee key and amount) — in particular when it carries no
`bolt11` tag at all; a `bolt11` tag whose processing fails makes `zaps()`
return that error before the no-referenced-event check is reached.
-/
theorem zaps_none_when_no_event_tag (e : Event)
    (hkind : e.kind = EventKind.Zap)
    (hnoe : ∀ t ∈ e.tags, isEventTag t = false)
    (hok : ∀ t ∈ e.tags, zapTagOk t = true) :
    Event.zaps e = .ok none := by
  obtain ⟨st2, hloop, hid⟩ :=
    zapsLoop_ok_keeps_id e.tags ⟨none, none, none⟩ hnoe hok
  obtain ⟨zi, za, zp⟩ := st2
  have hzi : zi = none := hid
  subst hzi
  unfold Event.zaps
  rw [if_neg (by simp [hkind])]
  rw [hloop]
  rfl

/-- A person-directed zap receipt: no `Event` tag, no `bolt11` tag. -/
def zapPersonEvent : Event :=
  { id := ⟨List.replicate 32 0⟩, pubkey := ⟨List.replicate 32 0⟩,
    created_at := 0, kind := 9735,
    tags := [Tag.Pubkey "00" none none, Tag.Hashtag "zap"],
    content := "", ots := none, sig := ⟨[]⟩ }

/-- A person-directed zap receipt carrying a well-formed `bolt11` tag (valid
payee key, amount and signature) and still no `Event` tag. -/
def zapBolt11OkEvent : Event :=
  { id := ⟨List.replicate 32 0⟩, pubkey := ⟨List.replicate 32 0⟩,
    created_at := 0, kind := 9735,
    tags := [Tag.Pubkey "00" none none,
             Tag.Other "bolt11"
               ["inv:" ++ hexEncode (List.replicate 33 2) ++ ":2100:ok"],
             Tag.Hashtag "zap"],
    content := "", ots := none, sig := ⟨[]⟩ }

/-- C9 witness: the amended theorem applied at a person-zap event with no
`bolt11` tag and at one carrying a well-formed `bolt11` tag. -/
theorem zaps_none_when_no_event_tag_witness :
    Event.zaps zapPersonEvent = .ok none
    ∧ Event.zaps zapBolt11OkEvent = .ok none :=
  ⟨zaps_none_when_no_event_tag zapPersonEvent rfl (by decide) (by decide),
   zaps_none_when_no_event_tag zapBolt11OkEvent rfl (by decide) (by decide)⟩

/-! ## Claim C5: `replies_to` precedence -/

/-- The payload of an `Event` tag: id, raw relay url, marker. -/
def evPayload : Tag → Option (Id × Option UncheckedUrl × Option String)
  | .Event id rru marker => some (id, rru, marker)
  | _ => none

/--
The claim's description of `replies_to` as written: not feed-displayable or
repost gives nothing; a "reply"-marked Event tag wins; else a "root"-marked
one; else, if any Event tag is entirely unmarked, the last such unmarked tag
wins; other markers are ignored entirely.
-/
def repliesToClaimed (e : Event) : Option (Id × Option RelayUrl) :=
  if ¬ e.kind.is_feed_displayable then none
  else if e.kind = EventKind.Repost then none
  else
    match (e.tags.filterMap evPayload).find? (fun p => p.2.2 == some "reply") with
    | some p => some (p.1, relayOpt p.2.1)
    | none =>
      match (e.tags.filterMap evPayload).find? (fun p => p.2.2 == some "root") with
      | some p => some (p.1, relayOpt p.2.1)
      | none =>
        match ((e.tags.filterMap evPayload).filter (fun p => p.2.2 == none)).getLast? with
        | some p => some (p.1, relayOpt p.2.1)
        | none => none

/--
The amended description: as claimed, except that in the unmarked fallback
the last `Event` tag overall (marked or not) is inspected, and a reply is
reported only when that last tag is unmarked.
-/
def repliesToAmended (e : Event) : Option (Id × Option RelayUrl) :=
  if ¬ e.kind.is_feed_displayable then none
  else if e.kind = EventKind.Repost then none
  else
    match (e.tags.filterMap evPayload).find? (fun p => p.2.2 == some "reply") with
    | some p => some (p.1, relayOpt p.2.1)
    | none =>
      match (e.tags.filterMap evPayload).find? (fun p => p.2.2 == some "root") with
      | some p => some (p.1, relayOpt p.2.1)
      | none =>
        match (e.tags.filterMap evPayload).getLast? with
        | some (id, rru, none) => some (id, relayOpt rru)
        | _ => none

/-- A feed-displayable (kind 1) event whose `Event` tags are an unmarked one
followed by one bearing an unrecognized marker. -/
def replyProbeEvent : Event :=
  { id := ⟨List.replicate 32 0⟩, pubkey := ⟨List.replicate 32 0⟩,
    created_at := 0, kind := 1,
    tags := [Tag.Event ⟨List.replicate 32 3⟩ none none,
             Tag.Event ⟨List.replicate 32 4⟩ none (some "wacky")],
    content := "", ots := none, sig := ⟨[]⟩ }

/--
C5 counterexample.  With an unmarked `Event` tag followed by one bearing an
unrecognized marker, the claim's rule ("the last unmarked tag wins whenever
any unmarked Event tag exists") reports the unmarked tag, but the code
inspects only the last `Event` tag overall — here marked "wacky" — and
reports no reply.
-/
theorem replies_to_last_unmarked_mismatch :
    repliesToClaimed replyProbeEvent = some (⟨List.replicate 32 3⟩, none)
    ∧ Event.replies_to replyProbeEvent = none := by
  constructor <;> rfl

theorem findEventWithMarker_eq (m : String) (tags : List Tag) :
    findEventWithMarker m tags
      = ((tags.filterMap evPayload).find? (fun p => p.2.2 == some m)).map
          (fun p => (p.1, relayOpt p.2.1)) := by
  induction tags with
  | nil => rfl
  | cons t rest ih =>
    cases t with
    | Event id rru marker =>
      rw [show (Tag.Event id rru marker :: rest).filterMap evPayload
          = (id, rru, marker) :: rest.filterMap evPayload from by
        simp [evPayload, List.filterMap_cons]]
      by_cases hm : marker = some m
      · rw [List.find?_cons_of_pos _ (by simp [hm])]
        simp only [findEventWithMarker, if_pos hm]
        rfl
      · rw [List.find?_cons_of_neg _ (by simp [hm])]
        simp only [findEventWithMarker, if_neg hm]
        exact ih
    | Address k p d r => simpa [findEventWithMarker, evPayload, List.filterMap_cons] using ih
    | ContentWarning w => simpa [findEventWithMarker, evPayload, List.filterMap_cons] using ih
    | Delegation p c s => simpa [findEventWithMarker, evPayload, List.filterMap_cons] using ih
    | Expiration t => simpa [findEventWithMarker, evPayload, List.filterMap_cons] using ih
    | Pubkey p r pn => simpa [findEventWithMarker, evPayload, List.filterMap_cons] using ih
    | Hashtag h => simpa [findEventWithMarker, evPayload, List.filterMap_cons] using ih
    | Reference u mk => simpa [findEventWithMarker, evPayload, List.filterMap_cons] using ih
    | Geohash g => simpa [findEventWithMarker, evPayload, List.filterMap_cons] using ih
    | Identifier i => simpa [findEventWithMarker, evPayload, List.filterMap_cons] using ih
    | Subject s => simpa [findEventWithMarker, evPayload, List.filterMap_cons] using ih
    | Nonce n tg => simpa [findEventWithMarker, evPayload, List.filterMap_cons] using ih
    | Parameter p => simpa [findEventWithMarker, evPayload, List.filterMap_cons] using ih
    | Title t => simpa [findEventWithMarker, evPayload, List.filterMap_cons] using ih
    | Other tg dt => simpa [findEventWithMarker, evPayload, List.filterMap_cons] using ih
    | Empty => simpa [findEventWithMarker, evPayload, List.filterMap_cons] using ih

theorem find?_head_match (l : List Tag) :
    (match l.find? isEventTag with
     | some (.Event id rru none) => some (id, relayOpt rru)
     | _ => none)
      = (match (l.filterMap evPayload).head? with
         | some (id, rru, none) => some (id, relayOpt rru)
         | _ => none) := by
  induction l with
  | nil => rfl
  | cons t rest ih =>
    cases t with
    | Event id rru marker =>
      cases marker <;>
        simp [List.find?, isEventTag, evPayload, List.filterMap_cons]
    | Address k p d r => simpa [List.find?, isEventTag, evPayload, List.filterMap_cons] using ih
    | ContentWarning w => simpa [List.find?, isEventTag, evPayload, List.filterMap_cons] using ih
    | Delegation p c s => simpa [List.find?, isEventTag, evPayload, List.filterMap_cons] using ih
    | Expiration t => simpa [List.find?, isEventTag, evPayload, List.filterMap_cons] using ih
    | Pubkey p r pn => simpa [List.find?, isEventTag, evPayload, List.filterMap_cons] using ih
    | Hashtag h => simpa [List.find?, isEventTag, evPayload, List.filterMap_cons] using ih
    | Reference u mk => simpa [List.find?, isEventTag, evPayload, List.filterMap_cons] using ih
    | Geohash g => simpa [List.find?, isEventTag, evPayload, List.filterMap_cons] using ih
    | Identifier i => simpa [List.find?, isEventTag, evPayload, List.filterMap_cons] using ih
    | Subject s => simpa [List.find?, isEventTag, evPayload, List.filterMap_cons] using ih
    | Nonce n tg => simpa [List.find?, isEventTag, evPayload, List.filterMap_cons] using ih
    | Parameter p => simpa [List.find?, isEventTag, evPayload, List.filterMap_cons] using ih
    | Title t => simpa [List.find?, isEventTag, evPayload, List.filterMap_cons] using ih
    | Other tg dt => simpa [List.find?, isEventTag, evPayload, List.filterMap_cons] using ih
    | Empty => simpa [List.find?, isEventTag, evPayload, List.filterMap_cons] using ih

theorem last_event_match (tags : List Tag) :
    (match tags.reverse.find? isEventTag with
     | some (.Event id rru none) => some (id, relayOpt rru)
     | _ => none)
      = (match (tags.filterMap evPayload).getLast? with
         | some (id, rru, none) => some (id, relayOpt rru)
         | _ => none) := by
  rw [List.getLast?_eq_head?_reverse, ← List.filterMap_reverse]
  exact find?_head_match tags.reverse

theorem filterMap_evPayload_nil_of_no_events {tags : List Tag}
    (h : (tags.filter isEventTag).length = 0) :
    tags.filterMap evPayload = [] := by
  induction tags with
  | nil => rfl
  | cons t rest ih =>
    cases t with
    | Event id rru m => simp [List.filter, isEventTag] at h
    | Address k p d r => exact ih (by simpa [List.filter, isEventTag] using h)
    | ContentWarning w => exact ih (by simpa [List.filter, isEventTag] using h)
    | Delegation p c s => exact ih (by simpa [List.filter, isEventTag] using h)
    | Expiration t => exact ih (by simpa [List.filter, isEventTag] using h)
    | Pubkey p r pn => exact ih (by simpa [List.filter, isEventTag] using h)
    | Hashtag h2 => exact ih (by simpa [List.filter, isEventTag] using h)
    | Reference u mk => exact ih (by simpa [List.filter, isEventTag] using h)
    | Geohash g => exact ih (by simpa [List.filter, isEventTag] using h)
    | Identifier i => exact ih (by simpa [List.filter, isEventTag] using h)
    | Subject s => exact ih (by simpa [List.filter, isEventTag] using h)
    | Nonce n tg => exact ih (by simpa [List.filter, isEventTag] using h)
    | Parameter p => exact ih (by simpa [List.filter, isEventTag] using h)
    | Title t => exact ih (by simpa [List.filter, isEventTag] using h)
    | Other tg dt => exact ih (by simpa [List.filter, isEventTag] using h)
    | Empty => exact ih (by simpa [List.filter, isEventTag] using h)

/--
C5 amended.  `replies_to` gives nothing for non-feed-displayable or repost
kinds; else a "reply"-marked `Event` tag wins, else a "root"-marked one;
else the last `Event` tag overall is inspected and wins only if it is
entirely unmarked — an unrecognized marker on that last tag suppresses the
reply even when earlier unmarked `Event` tags exist.
-/
theorem replies_to_matches_amended (e : Event) :
    Event.replies_to e = repliesToAmended e := by
  unfold Event.replies_to repliesToAmended
  by_cases hfeed : e.kind.is_feed_displayable = true
  · have hnf : ¬¬(e.kind.is_feed_displayable = true) := fun hc => hc hfeed
    rw [if_neg hnf, if_neg hnf]
    by_cases hrepost : e.kind = EventKind.Repost
    · rw [if_pos hrepost, if_pos hrepost]
    · rw [if_neg hrepost, if_neg hrepost]
      by_cases hzero : (e.tags.filter isEventTag).length = 0
      · rw [if_pos hzero]
        have hnil := filterMap_evPayload_nil_of_no_events hzero
        rw [hnil]
        rfl
      · rw [if_neg hzero]
        rw [findEventWithMarker_eq, findEventWithMarker_eq]
        cases hfind : (e.tags.filterMap evPayload).find?
            (fun p => p.2.2 == some "reply") with
        | some p => rfl
        | none =>
          cases hfind2 : (e.tags.filterMap evPayload).find?
              (fun p => p.2.2 == some "root") with
          | some p => rfl
          | none => exact last_event_match e.tags
  · rw [if_pos hfeed, if_pos hfeed]

/-! ## Claim C4: the tag decode policy -/

/-- The tag names with dedicated decode branches. -/
def recognizedTagName (s : String) : Bool :=
  s == "a" || s == "content-warning" || s == "delegation" || s == "e"
    || s == "expiration" || s == "p" || s == "t" || s == "r" || s == "g"
    || s == "d" || s == "subject" || s == "nonce" || s == "parameter"
    || s == "title"

/-- Is an `"a"` tag's packed string well formed: exactly three colon-separated
parts, a `u32` kind, a valid hex public key? -/
def wellFormedATag (a : String) : Bool :=
  match (splitOnChar ':' a.data).map (fun l => (⟨l⟩ : String)) with
  | [p0, p1, _] => (parseU32 p0).isSome && isHexOfLength 64 p1
  | _ => false

/--
C4 counterexample.  Tag decoding can fail on a syntactically valid JSON
array of strings: `["e","zz"]` errors because the id element's own
deserialization (hex of a 32-byte id) fails, instead of falling back to
`Other`.
-/
theorem decode_e_tag_bad_hex :
    Tag.deserializeTag [Json.str "e", Json.str "zz"]
      = .error "invalid id hex" := rfl

theorem getStrs_map_str (strs : List String) :
    getStrs (strs.map Json.str) = .ok strs := by
  induction strs with
  | nil => rfl
  | cons s rest ih =>
    show (do
      let s' ← getStr (Json.str s)
      let r ← getStrs (rest.map Json.str)
      Except.ok (s' :: r)) = _
    rw [show getStr (Json.str s) = .ok s from rfl]
    show (do
      let r ← getStrs (rest.map Json.str)
      Except.ok (s :: r)) = _
    rw [ih]
    rfl

/-- Validation succeeds, and is the identity, on a 64-digit hex key. -/
theorem try_from_str_hex_ok {s : String} (h : isHexOfLength 64 s = true) :
    PublicKeyHex.try_from_str s = .ok s := by
  unfold PublicKeyHex.try_from_str
  rw [if_pos h]

theorem decodeAFinish_malformed (a : String) (r : Option String)
    (h : wellFormedATag a = false) :
    decodeAFinish a r = .Other "a" (aFailVec a r) := by
  unfold wellFormedATag at h
  unfold decodeAFinish
  split
  · next p0 p1 p2 heq =>
    rw [heq] at h
    simp only [Bool.and_eq_false_iff] at h
    rcases h with h | h
    · rw [show parseU32 p0 = none from by
        cases hp : parseU32 p0 with
        | none => rfl
        | some v => rw [hp] at h; simp at h]
    · rw [show PublicKeyHex.try_from_str p1 = .error "invalid public key hex" from by
        unfold PublicKeyHex.try_from_str
        rw [if_neg (by simp [h])]]
      cases hp : parseU32 p0 with
      | none => rfl
      | some v => rfl
  · rfl

/-- Decoding an array whose first element is not a recognized tag name
captures every subsequent element into an `Other` tag. -/
theorem deserialize_unrecognized (name : String) (strs : List String)
    (h : recognizedTagName name = false) :
    Tag.deserializeTag (Json.str name :: strs.map Json.str)
      = .ok (.Other name strs) := by
  show (do
    let nm ← getStr (Json.str name)
    if nm = "a" then decodeATag (strs.map Json.str)
    else if nm = "content-warning" then
      decodeOneStr nm Tag.ContentWarning (strs.map Json.str)
    else if nm = "delegation" then decodeDelegationTag (strs.map Json.str)
    else if nm = "e" then decodeETag (strs.map Json.str)
    else if nm = "expiration" then decodeExpirationTag (strs.map Json.str)
    else if nm = "p" then decodePTag (strs.map Json.str)
    else if nm = "t" then decodeOneStr nm Tag.Hashtag (strs.map Json.str)
    else if nm = "r" then decodeRTag (strs.map Json.str)
    else if nm = "g" then decodeOneStr nm Tag.Geohash (strs.map Json.str)
    else if nm = "d" then decodeImplicitStr Tag.Identifier (strs.map Json.str)
    else if nm = "subject" then decodeOneStr nm Tag.Subject (strs.map Json.str)
    else if nm = "nonce" then decodeNonceTag (strs.map Json.str)
    else if nm = "parameter" then
      decodeImplicitStr Tag.Parameter (strs.map Json.str)
    else if nm = "title" then decodeOneStr nm Tag.Title (strs.map Json.str)
    else do
      let data ← getStrs (strs.map Json.str)
      Except.ok (.Other nm data)) = Except.ok (.Other name strs)
  rw [show getStr (Json.str name) = .ok name from rfl]
  show (if name = "a" then _ else _) = _
  rw [if_neg (fun hx => absurd (hx ▸ h) (by decide)),
      if_neg (fun hx => absurd (hx ▸ h) (by decide)),
      if_neg (fun hx => absurd (hx ▸ h) (by decide)),
      if_neg (fun hx => absurd (hx ▸ h) (by decide)),
      if_neg (fun hx => absurd (hx ▸ h) (by decide)),
      if_neg (fun hx => absurd (hx ▸ h) (by decide)),
      if_neg (fun hx => absurd (hx ▸ h) (by decide)),
      if_neg (fun hx => absurd (hx ▸ h) (by decide)),
      if_neg (fun hx => absurd (hx ▸ h) (by decide)),
      if_neg (fun hx => absurd (hx ▸ h) (by decide)),
      if_neg (fun hx => absurd (hx ▸ h) (by decide)),
      if_neg (fun hx => absurd (hx ▸ h) (by decide)),
      if_neg (fun hx => absurd (hx ▸ h) (by decide)),
      if_neg (fun hx => absurd (hx ▸ h) (by decide))]
  show (do
    let data ← getStrs (strs.map Json.str)
    Except.ok (Tag.Other name data)) = _
  rw [getStrs_map_str]
  rfl

/--
C4 amended.  Tag decoding is lenient about missing required elements but
strict about malformed present ones: the empty array decodes to `Empty`; an
unrecognized first element decodes to `Other` with all subsequent elements
captured in order; every recognized name with all of its required elements
missing decodes to `Other` carrying just the name (each of the twelve such
names listed), except `"d"` and `"parameter"`, which decode to an implicit
empty-string value; a `"delegation"` tag whose elements stop after a valid
hex pubkey, or after a valid pubkey and parseable conditions, decodes to
`Other` carrying the raw strings seen so far; an `"a"` tag whose packed
string does not split into exactly three colon-separated parts, or whose
first part is not a valid integer, or whose second part is not a valid hex
public key, decodes to `Other` carrying the raw strings seen so far; but a
typed element that is present and itself fails to deserialize makes
decoding error, as `["e","zz"]` does on its malformed id hex.
-/
theorem decode_policy :
    Tag.deserializeTag [] = .ok .Empty
    ∧ (∀ (name : String) (strs : List String), recognizedTagName name = false →
        Tag.deserializeTag (Json.str name :: strs.map Json.str)
          = .ok (.Other name strs))
    ∧ Tag.deserializeTag [Json.str "a"] = .ok (.Other "a" [])
    ∧ Tag.deserializeTag [Json.str "content-warning"]
        = .ok (.Other "content-warning" [])
    ∧ Tag.deserializeTag [Json.str "delegation"] = .ok (.Other "delegation" [])
    ∧ Tag.deserializeTag [Json.str "e"] = .ok (.Other "e" [])
    ∧ Tag.deserializeTag [Json.str "expiration"] = .ok (.Other "expiration" [])
    ∧ Tag.deserializeTag [Json.str "p"] = .ok (.Other "p" [])
    ∧ Tag.deserializeTag [Json.str "t"] = .ok (.Other "t" [])
    ∧ Tag.deserializeTag [Json.str "r"] = .ok (.Other "r" [])
    ∧ Tag.deserializeTag [Json.str "g"] = .ok (.Other "g" [])
    ∧ Tag.deserializeTag [Json.str "subject"] = .ok (.Other "subject" [])
    ∧ Tag.deserializeTag [Json.str "nonce"] = .ok (.Other "nonce" [])
    ∧ Tag.deserializeTag [Json.str "title"] = .ok (.Other "title" [])
    ∧ (∀ pk : String, isHexOfLength 64 pk = true →
        Tag.deserializeTag [Json.str "delegation", Json.str pk]
          = .ok (.Other "delegation" [pk])
        ∧ ∀ (cs : String) (c : DelegationConditions),
            DelegationConditions.try_from_str cs = .ok c →
            Tag.deserializeTag [Json.str "delegation", Json.str pk, Json.str cs]
              = .ok (.Other "delegation" [pk, c.as_string]))
    ∧ (∀ a : String, wellFormedATag a = false →
        Tag.deserializeTag [Json.str "a", Json.str a] = .ok (.Other "a" [a])
        ∧ ∀ u : String, Tag.deserializeTag [Json.str "a", Json.str a, Json.str u]
            = .ok (.Other "a" [a, u]))
    ∧ Tag.deserializeTag [Json.str "d"] = .ok (.Identifier "")
    ∧ Tag.deserializeTag [Json.str "parameter"] = .ok (.Parameter "") := by
  refine ⟨rfl, ?_, rfl, rfl, rfl, rfl, rfl, rfl, rfl, rfl, rfl, rfl, rfl, rfl,
    ?_, ?_, rfl, rfl⟩
  · exact fun name strs h => deserialize_unrecognized name strs h
  · intro pk hpk
    constructor
    · show (do
        let p2 ← PublicKeyHex.try_from_str pk
        Except.ok (Tag.Other "delegation" [p2])) = _
      rw [try_from_str_hex_ok hpk]
      rfl
    · intro cs c hc
      show (do
        let p2 ← PublicKeyHex.try_from_str pk
        let c2 ← DelegationConditions.try_from_str cs
        Except.ok (Tag.Other "delegation" [p2, c2.as_string])) = _
      rw [try_from_str_hex_ok hpk]
      show (do
        let c2 ← DelegationConditions.try_from_str cs
        Except.ok (Tag.Other "delegation" [pk, c2.as_string])) = _
      rw [hc]
      rfl
  · intro a h
    constructor
    · show Except.ok (decodeAFinish a none) = _
      rw [decodeAFinish_malformed a none h]
      rfl
    · intro u
      show Except.ok (decodeAFinish a (some u)) = _
      rw [decodeAFinish_malformed a (some u) h]
      rfl

/-- C4 witness: the amended decode policy applied at concrete arrays,
including missing-required-element fallbacks for a recognized name and for
partial `"delegation"` tags. -/
theorem decode_policy_witness :
    Tag.deserializeTag [Json.str "relays", Json.str "x", Json.str "y"]
      = .ok (.Other "relays" ["x", "y"])
    ∧ Tag.deserializeTag [Json.str "t"] = .ok (.Other "t" [])
    ∧ Tag.deserializeTag [Json.str "delegation",
        Json.str (hexEncode (List.replicate 32 1))]
      = .ok (.Other "delegation" [hexEncode (List.replicate 32 1)])
    ∧ Tag.deserializeTag [Json.str "delegation",
        Json.str (hexEncode (List.replicate 32 1)), Json.str "kind=1"]
      = .ok (.Other "delegation" [hexEncode (List.replicate 32 1), "kind=1"])
    ∧ Tag.deserializeTag [Json.str "a", Json.str "1:2"]
      = .ok (.Other "a" ["1:2"])
    ∧ Tag.deserializeTag [Json.str "a", Json.str "1:2", Json.str "wss://r"]
      = .ok (.Other "a" ["1:2", "wss://r"])
    ∧ Tag.deserializeTag [] = .ok .Empty
    ∧ Tag.deserializeTag [Json.str "d"] = .ok (.Identifier "") := by
  obtain ⟨hempty, hunrec, _, _, _, _, _, _, hT, _, _, _, _, _, hdel, hA, hD, _⟩ :=
    decode_policy
  refine ⟨hunrec "relays" ["x", "y"] (by decide), hT, ?_, ?_, ?_, ?_, hempty, hD⟩
  · exact (hdel (hexEncode (List.replicate 32 1)) (by decide)).1
  · exact (hdel (hexEncode (List.replicate 32 1)) (by decide)).2 "kind=1"
      ⟨some 1, none, none, "kind=1"⟩ rfl
  · exact (hA "1:2" (by decide)).1
  · exact (hA "1:2" (by decide)).2 "wss://r"

/-! ## Claim C6: delegation -/

/-- The parsed form of the test-vector condition string. -/
def demoConditions : DelegationConditions :=
  { kind := some 1, created_after := some 1680000000,
    created_before := some 1680050000,
    full := "kind=1&created_at>1680000000&created_at<1680050000" }

/-- A concrete delegator key. -/
def demoDelegatorKey : PrivateKey := ⟨List.replicate 32 7⟩

/-- A concrete delegatee (signer) key. -/
def demoSignerKey : PrivateKey := ⟨List.replicate 32 9⟩

/-- A delegated event: its `Delegation` tag carries the delegator's hex key,
the test-vector conditions and a valid delegation signature. -/
def delegatedEvent (ca : Unixtime) : Event :=
  Event.new
    { pubkey := demoSignerKey.public_key, created_at := ca, kind := 1,
      tags := [Tag.Hashtag "greeting",
               Tag.Delegation demoDelegatorKey.public_key.as_hex_string
                 demoConditions
                 (hexEncode (demoConditions.generate_signature
                   demoSignerKey.public_key.as_hex_string demoDelegatorKey).bytes)],
      content := "Hello World!", ots := none }
    demoSignerKey

theorem delegationLoop_no_delegation (e : Event) (tags : List Tag)
    (h : ∀ t ∈ tags, isDelegationTag t = false) :
    delegationLoop e tags = .NotDelegated := by
  induction tags with
  | nil => rfl
  | cons t rest ih =>
    have ht := h t (List.mem_cons_self _ _)
    have hrest : ∀ x ∈ rest, isDelegationTag x = false :=
      fun x hx => h x (List.mem_cons_of_mem _ hx)
    cases t <;> first
      | exact ih hrest
      | simp [isDelegationTag] at ht

/--
C6.  `delegation()` reports "not delegated" for every event with no
`Delegation` tag; and for a delegated event whose delegation signature
verifies, the condition string
`kind=1&created_at>1680000000&created_at<1680050000` parses to (kind 1,
after 1680000000, before 1680050000) and yields delegated-by(delegator) at
`created_at = 1680000012`, invalid with exactly
"Event created after delegation ended" at `1690000000`, and invalid with
exactly "Event created before delegation started" at `1610000000`.
-/
theorem delegation_results (e : Event)
    (h : ∀ t ∈ e.tags, isDelegationTag t = false) :
    Event.delegation e = .NotDelegated
    ∧ DelegationConditions.try_from_str
        "kind=1&created_at>1680000000&created_at<1680050000" = .ok demoConditions
    ∧ (delegatedEvent 1680000012).delegation
        = .DelegatedBy demoDelegatorKey.public_key
    ∧ (delegatedEvent 1690000000).delegation
        = .InvalidDelegation "Event created after delegation ended"
    ∧ (delegatedEvent 1610000000).delegation
        = .InvalidDelegation "Event created before delegation started" := by
  refine ⟨delegationLoop_no_delegation e e.tags h, rfl, rfl, rfl, rfl⟩

/-- C6 witness: the theorem applied at a concrete event with no delegation
tag. -/
theorem delegation_results_witness :
    Event.delegation zapPersonEvent = .NotDelegated
    ∧ (delegatedEvent 1680000012).delegation
        = .DelegatedBy demoDelegatorKey.public_key :=
  ⟨(delegation_results zapPersonEvent (by decide)).1,
   (delegation_results zapPersonEvent (by decide)).2.2.1⟩

/-! ## Claim C2: verification soundness -/

theorem verify_ok_imp_digest (e : Event) (mt : Option Unixtime)
    (h : e.verify mt = .ok ()) :
    sha256 (utf8Bytes (serializeEvent e)) = e.id.bytes := by
  unfold Event.verify at h
  dsimp only [] at h
  split at h
  · exact Except.noConfusion h
  · split at h
    · exact Except.noConfusion h
    · split at h
      · exact Except.noConfusion h
      · next hid => exact not_not.mp hid

theorem verify_ok_of (e : Event)
    (hsig : e.sig.bytes
      = sigBytesOf e.pubkey.bytes (sha256 (utf8Bytes (serializeEvent e))))
    (hid : e.id.bytes = sha256 (utf8Bytes (serializeEvent e))) :
    e.verify none = .ok () := by
  have hver : schnorr_verify e.pubkey (utf8Bytes (serializeEvent e)) e.sig = true := by
    unfold schnorr_verify
    rw [hsig]
    exact beq_self_eq_true _
  unfold Event.verify
  dsimp only []
  rw [if_neg (fun hc => hc hver)]
  rw [if_neg (c := sha256 (utf8Bytes (serializeEvent e)) ≠ e.id.bytes)
      (not_not_intro hid.symm)]
  rfl

theorem serializeEvent_new (pre : PreEvent) (sk : PrivateKey) :
    serializeEvent (Event.new pre sk)
      = serialize_inner_event pre.pubkey pre.created_at pre.kind pre.tags
          pre.content := by
  unfold serializeEvent Event.new
  dsimp only []

theorem id_bytes_new (pre : PreEvent) (sk : PrivateKey) :
    (Event.new pre sk).id.bytes
      = sha256 (utf8Bytes (serializeEvent (Event.new pre sk))) := by
  rw [serializeEvent_new]
  unfold Event.new Event.hash
  dsimp only []

theorem verify_new_ok (pre : PreEvent) (sk : PrivateKey)
    (hpk : pre.pubkey = sk.public_key) :
    Event.verify (Event.new pre sk) none = .ok () := by
  have hkey : pre.pubkey.bytes = sk.public_key.bytes := by rw [hpk]
  have hsigb : (Event.new pre sk).sig.bytes
      = sigBytesOf (Event.new pre sk).pubkey.bytes
          (sha256 (utf8Bytes (serializeEvent (Event.new pre sk)))) := by
    rw [serializeEvent_new]
    unfold Event.new PrivateKey.sign_id Event.hash
    dsimp only []
    rw [hkey]
  exact verify_ok_of (Event.new pre sk) hsigb (id_bytes_new pre sk)

/-- Decidable equality for `Except`, used to evaluate decode and verify
results on concrete inputs. -/
instance exceptDecEq {ε α : Type} [DecidableEq ε] [DecidableEq α] :
    DecidableEq (Except ε α)
  | .error x, .error y =>
    if h : x = y then .isTrue (h ▸ rfl)
    else .isFalse (fun hc => h (by injection hc))
  | .error _, .ok _ => .isFalse (fun hc => Except.noConfusion hc)
  | .ok _, .error _ => .isFalse (fun hc => Except.noConfusion hc)
  | .ok x, .ok y =>
    if h : x = y then .isTrue (h ▸ rfl)
    else .isFalse (fun hc => h (by injection hc))

/-- A PreEvent whose single tag is an `Other` tag sharing its wire form with
an `Event` tag. -/
def collidingPre : PreEvent :=
  { pubkey := PrivateKey.public_key ⟨List.replicate 32 5⟩, created_at := 11,
    kind := 1,
    tags := [Tag.Other "e"
      ["0000000000000000000000000000000000000000000000000000000000000000"]],
    content := "x", ots := none }

/-- C2 counterexample: replacing the tag list of a verified event with a
DIFFERENT tag list that serializes identically still verifies, so the
claim's unconditional 'altering tags causes verification failure' is
false. -/
theorem verify_tag_mutation_passes :
    [Tag.Event ⟨List.replicate 32 0⟩ none none] ≠ collidingPre.tags
    ∧ Event.verify
        { Event.new collidingPre ⟨List.replicate 32 5⟩ with
          tags := [Tag.Event ⟨List.replicate 32 0⟩ none none] } none
      = .ok () := by
  refine ⟨by decide, by decide⟩

/-- Updating `content` leaves the stored id unchanged. -/
theorem id_set_content (e : Event) (c : String) :
    ({ e with content := c } : Event).id = e.id := by
  cases e
  rfl

/-- Updating `created_at` leaves the stored id unchanged. -/
theorem id_set_created_at (e : Event) (t : Unixtime) :
    ({ e with created_at := t } : Event).id = e.id := by
  cases e
  rfl

/-- Updating `kind` leaves the stored id unchanged. -/
theorem id_set_kind (e : Event) (k : EventKind) :
    ({ e with kind := k } : Event).id = e.id := by
  cases e
  rfl

/-- Updating `tags` leaves the stored id unchanged. -/
theorem id_set_tags (e : Event) (ts : List Tag) :
    ({ e with tags := ts } : Event).id = e.id := by
  cases e
  rfl

/-- Updating `pubkey` leaves the stored id unchanged. -/
theorem id_set_pubkey (e : Event) (p : PublicKey) :
    ({ e with pubkey := p } : Event).id = e.id := by
  cases e
  rfl

/-- Updating `id` does not change the canonical serialization, which never
reads the stored id. -/
theorem serializeEvent_set_id (e : Event) (i : Id) :
    serializeEvent { e with id := i } = serializeEvent e := by
  cases e
  rfl

/-- Updating `id` stores exactly the new id. -/
theorem id_set_id (e : Event) (i : Id) :
    ({ e with id := i } : Event).id = i := by
  cases e
  rfl

/-- Two ids with the same bytes are equal. -/
theorem id_eq_of_bytes (a b : Id) (h : a.bytes = b.bytes) : a = b := by
  cases a
  cases b
  exact congrArg Id.mk h

/--
C2 amended.  For every PreEvent whose pubkey is the private key's public
key, `verify(new(pre, key), None)` succeeds; and mutating any single one of
content, created_at, kind, tags or pubkey makes verification fail provided
the mutation changes the digest of the canonical serialization (distinct
tag lists can collide on the wire, so a tags change alone does not
suffice), while mutating `id` to any different value always fails.
-/
theorem verify_soundness (pre : PreEvent) (sk : PrivateKey)
    (hpk : pre.pubkey = sk.public_key) :
    Event.verify (Event.new pre sk) none = .ok ()
    ∧ (∀ c : String,
        sha256 (utf8Bytes (serializeEvent { Event.new pre sk with content := c }))
          ≠ sha256 (utf8Bytes (serializeEvent (Event.new pre sk))) →
        Event.verify { Event.new pre sk with content := c } none ≠ .ok ())
    ∧ (∀ t : Unixtime,
        sha256 (utf8Bytes (serializeEvent { Event.new pre sk with created_at := t }))
          ≠ sha256 (utf8Bytes (serializeEvent (Event.new pre sk))) →
        Event.verify { Event.new pre sk with created_at := t } none ≠ .ok ())
    ∧ (∀ k : EventKind,
        sha256 (utf8Bytes (serializeEvent { Event.new pre sk with kind := k }))
          ≠ sha256 (utf8Bytes (serializeEvent (Event.new pre sk))) →
        Event.verify { Event.new pre sk with kind := k } none ≠ .ok ())
    ∧ (∀ ts : List Tag,
        sha256 (utf8Bytes (serializeEvent { Event.new pre sk with tags := ts }))
          ≠ sha256 (utf8Bytes (serializeEvent (Event.new pre sk))) →
        Event.verify { Event.new pre sk with tags := ts } none ≠ .ok ())
    ∧ (∀ p : PublicKey,
        sha256 (utf8Bytes (serializeEvent { Event.new pre sk with pubkey := p }))
          ≠ sha256 (utf8Bytes (serializeEvent (Event.new pre sk))) →
        Event.verify { Event.new pre sk with pubkey := p } none ≠ .ok ())
    ∧ (∀ i : Id, i ≠ (Event.new pre sk).id →
        Event.verify { Event.new pre sk with id := i } none ≠ .ok ()) := by
  have hfail : ∀ e' : Event, e'.id = (Event.new pre sk).id →
      sha256 (utf8Bytes (serializeEvent e'))
        ≠ sha256 (utf8Bytes (serializeEvent (Event.new pre sk))) →
      Event.verify e' none ≠ .ok () := by
    intro e' hid2 hne hok
    apply hne
    rw [verify_ok_imp_digest e' none hok, hid2]
    exact id_bytes_new pre sk
  refine ⟨verify_new_ok pre sk hpk, ?_, ?_, ?_, ?_, ?_, ?_⟩
  · exact fun c => hfail { Event.new pre sk with content := c }
      (id_set_content (Event.new pre sk) c)
  · exact fun t => hfail { Event.new pre sk with created_at := t }
      (id_set_created_at (Event.new pre sk) t)
  · exact fun k => hfail { Event.new pre sk with kind := k }
      (id_set_kind (Event.new pre sk) k)
  · exact fun ts => hfail { Event.new pre sk with tags := ts }
      (id_set_tags (Event.new pre sk) ts)
  · exact fun p => hfail { Event.new pre sk with pubkey := p }
      (id_set_pubkey (Event.new pre sk) p)
  · intro i hne2 hok
    have hd := verify_ok_imp_digest { Event.new pre sk with id := i } none hok
    rw [serializeEvent_set_id (Event.new pre sk) i,
      id_set_id (Event.new pre sk) i] at hd
    have hb : i.bytes = (Event.new pre sk).id.bytes :=
      hd.symm.trans (id_bytes_new pre sk).symm
    exact hne2 (id_eq_of_bytes i (Event.new pre sk).id hb)

/-- A concrete PreEvent for the C2 witness. -/
def verifyPre : PreEvent :=
  { pubkey := PrivateKey.public_key ⟨List.replicate 32 5⟩, created_at := 11,
    kind := 1, tags := [Tag.Hashtag "hello"], content := "Hello World!",
    ots := none }

/-- C2 witness: the amended theorem applied at one concrete mutation per
field. -/
theorem verify_soundness_witness :
    Event.verify (Event.new verifyPre ⟨List.replicate 32 5⟩) none = .ok ()
    ∧ Event.verify { Event.new verifyPre ⟨List.replicate 32 5⟩ with
        content := "tampered" } none ≠ .ok ()
    ∧ Event.verify { Event.new verifyPre ⟨List.replicate 32 5⟩ with
        created_at := 12 } none ≠ .ok ()
    ∧ Event.verify { Event.new verifyPre ⟨List.replicate 32 5⟩ with
        kind := 2 } none ≠ .ok ()
    ∧ Event.verify { Event.new verifyPre ⟨List.replicate 32 5⟩ with
        tags := [Tag.Hashtag "bye"] } none ≠ .ok ()
    ∧ Event.verify { Event.new verifyPre ⟨List.replicate 32 5⟩ with
        pubkey := ⟨List.replicate 32 0⟩ } none ≠ .ok ()
    ∧ Event.verify { Event.new verifyPre ⟨List.replicate 32 5⟩ with
        id := ⟨List.replicate 32 0⟩ } none ≠ .ok () :=
  ⟨(verify_soundness verifyPre ⟨List.replicate 32 5⟩ rfl).1,
   (verify_soundness verifyPre ⟨List.replicate 32 5⟩ rfl).2.1 "tampered" (by decide),
   (verify_soundness verifyPre ⟨List.replicate 32 5⟩ rfl).2.2.1 12 (by decide),
   (verify_soundness verifyPre ⟨List.replicate 32 5⟩ rfl).2.2.2.1 2 (by decide),
   (verify_soundness verifyPre ⟨List.replicate 32 5⟩ rfl).2.2.2.2.1
     [Tag.Hashtag "bye"] (by decide),
   (verify_soundness verifyPre ⟨List.replicate 32 5⟩ rfl).2.2.2.2.2.1
     ⟨List.replicate 32 0⟩ (by decide),
   (verify_soundness verifyPre ⟨List.replicate 32 5⟩ rfl).2.2.2.2.2.2
     ⟨List.replicate 32 0⟩ (by decide)⟩

/-! ## Claim C3: the tag round trip -/

/-- `splitOnChar` on a list without the separator yields one group. -/
theorem splitOnChar_not_mem (ch : Char) (xs : List Char) (h : ch ∉ xs) :
    splitOnChar ch xs = [xs] := by
  induction xs with
  | nil => rfl
  | cons c rest ih =>
    have hc : ¬(c = ch) := fun hc2 => h (by rw [← hc2]; exact List.mem_cons_self c rest)
    have hrest : ch ∉ rest := fun hx => h (List.mem_cons_of_mem _ hx)
    simp only [splitOnChar]
    rw [if_neg hc, ih hrest]

/-- `splitOnChar` peels one separator-free group before a separator. -/
theorem splitOnChar_append (ch : Char) (xs ys : List Char) (h : ch ∉ xs) :
    splitOnChar ch (xs ++ ch :: ys) = xs :: splitOnChar ch ys := by
  induction xs with
  | nil =>
    show splitOnChar ch (ch :: ys) = [] :: splitOnChar ch ys
    simp [splitOnChar]
  | cons c rest ih =>
    have hc : ¬(c = ch) := fun hc2 => h (by rw [← hc2]; exact List.mem_cons_self c rest)
    have hrest : ch ∉ rest := fun hx => h (List.mem_cons_of_mem _ hx)
    show splitOnChar ch (c :: (rest ++ ch :: ys)) = (c :: rest) :: splitOnChar ch ys
    simp only [splitOnChar]
    rw [if_neg hc, ih hrest]

/-- Decimal renderings never contain a colon. -/
theorem natToStr_no_colon (n : Nat) : (':' : Char) ∉ (natToStr n).data := by
  intro hmem
  have hall := natDecChars_all_digits (n + 1) n
  rw [List.all_eq_true] at hall
  exact absurd (hall _ hmem) (by decide)

/-- Hex strings never contain a colon. -/
theorem hex_no_colon {n : Nat} {s : String} (h : isHexOfLength n s = true) :
    (':' : Char) ∉ s.data := by
  intro hmem
  unfold isHexOfLength at h
  rw [Bool.and_eq_true] at h
  rw [List.all_eq_true] at h
  exact absurd (h.2 _ hmem) (by decide)

/-- Decoding the hex encoding of a well-formed id restores it. -/
theorem Id_fromHex_roundtrip (i : Id) (h : Id.wf i) :
    Id.fromHexStr (hexEncode i.bytes) = .ok i := by
  obtain ⟨hlen, hbw⟩ := h
  have hhex : isHexOfLength 64 (hexEncode i.bytes) = true :=
    isHexOfLength_hexEncode hbw hlen
  unfold Id.fromHexStr
  rw [if_pos hhex]
  rw [show (hexEncode i.bytes).data = hexEncodeChars i.bytes from rfl,
    hexDecodeChars_hexEncodeChars hbw]

/-- The character data of the packed `"a"` string splits at the two
separating colons. -/
theorem packed_data (k : Nat) (pk d : String) :
    (natToStr k ++ ":" ++ pk ++ ":" ++ d).data
      = (natToStr k).data ++ ':' :: (pk.data ++ ':' :: d.data) := by
  rw [String.data_append, String.data_append, String.data_append,
    String.data_append]
  rw [show (":" : String).data = [':'] from rfl]
  simp [List.append_assoc]

/-- A packed `"a"` string with a `u32` kind, a hex pubkey and a colon-free
`d` decodes back to the `Address` it came from. -/
theorem decodeAFinish_wellformed (kind : Nat) (pk d : String)
    (ru : Option UncheckedUrl) (hk : kind < 4294967296)
    (hpk : isHexOfLength 64 pk = true) (hd : (':' : Char) ∉ d.data) :
    decodeAFinish (natToStr kind ++ ":" ++ pk ++ ":" ++ d) ru
      = Tag.Address kind pk d ru := by
  have hsplit : (splitOnChar ':'
        ((natToStr kind ++ ":" ++ pk ++ ":" ++ d).data)).map
        (fun l => (⟨l⟩ : String))
      = [natToStr kind, pk, d] := by
    rw [packed_data, splitOnChar_append ':' _ _ (natToStr_no_colon kind),
      splitOnChar_append ':' _ _ (hex_no_colon hpk),
      splitOnChar_not_mem ':' _ hd]
    simp only [List.map]
  unfold decodeAFinish
  rw [hsplit]
  dsimp only []
  rw [parseU32_natToStr hk]
  dsimp only []
  rw [try_from_str_hex_ok hpk]

/--
C3 counterexample: an `Event` tag with no relay url but a present marker
serializes with an empty-string relay placeholder, which decodes back with
`Some ""` as the relay url, so deserialize after serialize is not the
identity on every `Tag` value.
-/
theorem tag_roundtrip_event_marker_fails :
    Tag.deserializeTag (Tag.serializeTag
        (Tag.Event ⟨List.replicate 32 0⟩ none (some "reply")))
      = .ok (Tag.Event ⟨List.replicate 32 0⟩ (some "") (some "reply"))
    ∧ Tag.Event ⟨List.replicate 32 0⟩ (some "") (some "reply")
        ≠ Tag.Event ⟨List.replicate 32 0⟩ none (some "reply") :=
  ⟨by decide, by decide⟩

/-- The tags whose wire form decodes back to the same value: well-formed
hex/integer payloads, unrecognized `Other` names, and no absent optional
field before a present one. -/
def goodTag : Tag → Bool
  | .Address kind pubkey d _ =>
    decide (kind < 4294967296) && isHexOfLength 64 pubkey
      && decide ((':' : Char) ∉ d.data)
  | .Delegation pubkey conditions sig =>
    isHexOfLength 64 pubkey && isHexOfLength 128 sig
      && decide (DelegationConditions.try_from_str conditions.full
        = Except.ok conditions)
  | .Event id rru marker => decide (Id.wf id) && (marker.isNone || rru.isSome)
  | .Pubkey pubkey rru petname =>
    isHexOfLength 64 pubkey && (petname.isNone || rru.isSome)
  | .Other tag _ => !(recognizedTagName tag)
  | _ => true

/--
C3 amended.  Deserializing the serialization of a `Tag` restores it for
every variant whose payload is well formed and which does not hit the
placeholder collision: `Address` needs a `u32` kind, a hex pubkey and a
colon-free `d`; `Delegation` needs hex key/signature and conditions that
reparse to themselves; `Event` needs a well-formed id; `Event` and `Pubkey`
must not have an absent relay url together with a present marker/petname
(the serializer emits an empty-string placeholder that decodes as
`Some ""`); `Other` needs an unrecognized name.
-/
theorem tag_roundtrip_good (t : Tag) (h : goodTag t = true) :
    Tag.deserializeTag t.serializeTag = .ok t := by
  cases t with
  | Address kind pubkey d relay_url =>
    simp only [goodTag, Bool.and_eq_true, decide_eq_true_eq] at h
    obtain ⟨⟨hk, hpk⟩, hd⟩ := h
    cases relay_url with
    | none =>
      show Except.ok
          (decodeAFinish (natToStr kind ++ ":" ++ pubkey ++ ":" ++ d) none) = _
      rw [decodeAFinish_wellformed kind pubkey d none hk hpk hd]
    | some u =>
      show Except.ok
          (decodeAFinish (natToStr kind ++ ":" ++ pubkey ++ ":" ++ d) (some u)) = _
      rw [decodeAFinish_wellformed kind pubkey d (some u) hk hpk hd]
  | ContentWarning w => rfl
  | Delegation pubkey conditions sig =>
    simp only [goodTag, Bool.and_eq_true, decide_eq_true_eq] at h
    obtain ⟨⟨hpk, hsig⟩, hcond⟩ := h
    show (do
      let pk ← PublicKeyHex.try_from_str pubkey
      let conds ← DelegationConditions.try_from_str conditions.as_string
      if isHexOfLength 128 sig then Except.ok (Tag.Delegation pk conds sig)
      else Except.error "invalid signature hex") = _
    rw [try_from_str_hex_ok hpk]
    show (do
      let conds ← DelegationConditions.try_from_str conditions.as_string
      if isHexOfLength 128 sig then Except.ok (Tag.Delegation pubkey conds sig)
      else Except.error "invalid signature hex") = _
    rw [show DelegationConditions.try_from_str conditions.as_string
        = DelegationConditions.try_from_str conditions.full from rfl, hcond]
    show (if isHexOfLength 128 sig
      then Except.ok (Tag.Delegation pubkey conditions sig)
      else Except.error "invalid signature hex") = _
    rw [if_pos hsig]
  | Event id rru marker =>
    simp only [goodTag, Bool.and_eq_true, decide_eq_true_eq] at h
    obtain ⟨hwf, hmr⟩ := h
    cases rru with
    | none =>
      cases marker with
      | none =>
        show (do
          let i2 ← Id.fromHexStr (hexEncode id.bytes)
          Except.ok (Tag.Event i2 none none)) = _
        rw [Id_fromHex_roundtrip id hwf]
        rfl
      | some m => simp at hmr
    | some u =>
      cases marker with
      | none =>
        show (do
          let i2 ← Id.fromHexStr (hexEncode id.bytes)
          Except.ok (Tag.Event i2 (some u) none)) = _
        rw [Id_fromHex_roundtrip id hwf]
        rfl
      | some m =>
        show (do
          let i2 ← Id.fromHexStr (hexEncode id.bytes)
          Except.ok (Tag.Event i2 (some u) (some m))) = _
        rw [Id_fromHex_roundtrip id hwf]
        rfl
  | Expiration time => rfl
  | Pubkey pubkey rru petname =>
    simp only [goodTag, Bool.and_eq_true] at h
    obtain ⟨hpk, hmr⟩ := h
    cases rru with
    | none =>
      cases petname with
      | none =>
        show (do
          let pk ← PublicKeyHex.try_from_str pubkey
          Except.ok (Tag.Pubkey pk none none)) = _
        rw [try_from_str_hex_ok hpk]
        rfl
      | some pn => simp at hmr
    | some u =>
      cases petname with
      | none =>
        show (do
          let pk ← PublicKeyHex.try_from_str pubkey
          Except.ok (Tag.Pubkey pk (some u) none)) = _
        rw [try_from_str_hex_ok hpk]
        rfl
      | some pn =>
        show (do
          let pk ← PublicKeyHex.try_from_str pubkey
          Except.ok (Tag.Pubkey pk (some u) (some pn))) = _
        rw [try_from_str_hex_ok hpk]
        rfl
  | Hashtag hashtag => rfl
  | Reference url marker =>
    cases marker with
    | none => rfl
    | some m => rfl
  | Geohash geohash => rfl
  | Identifier id => rfl
  | Subject subject => rfl
  | Nonce nonce target =>
    cases target with
    | none => rfl
    | some t2 => rfl
  | Parameter param => rfl
  | Title title => rfl
  | Other tag data =>
    have h2 : recognizedTagName tag = false := by
      simp only [goodTag] at h
      cases hrt : recognizedTagName tag
      · rfl
      · rw [hrt] at h
        exact absurd h (by decide)
    exact deserialize_unrecognized tag data h2
  | Empty => rfl

/-- C3 witness: the amended round trip applied at concrete well-formed tags
of several variants. -/
theorem tag_roundtrip_good_witness :
    Tag.deserializeTag (Tag.serializeTag
        (Tag.Event ⟨List.replicate 32 0⟩ (some "wss://r") (some "reply")))
      = .ok (Tag.Event ⟨List.replicate 32 0⟩ (some "wss://r") (some "reply"))
    ∧ Tag.deserializeTag (Tag.serializeTag (Tag.Address 30023
        (hexEncode (List.replicate 32 1)) "post" none))
      = .ok (Tag.Address 30023 (hexEncode (List.replicate 32 1)) "post" none)
    ∧ Tag.deserializeTag (Tag.serializeTag (Tag.Hashtag "nostr"))
      = .ok (Tag.Hashtag "nostr") :=
  ⟨tag_roundtrip_good _ (by decide),
   tag_roundtrip_good _ (by decide),
   tag_roundtrip_good _ (by decide)⟩
